import Mathlib

/-!
# Verification of the supabase-schema mutation / SQL-export core

Shallow embedding of the schema data model, the agent-tool mutation engine
(`src/app/api/chat/route.ts`, ToolLoopAgent variant), the legacy
`applySchemaOperations` path, and the dependency-ordered SQL generator
(`ModalSQL` in `HelperZoom.tsx`).

JavaScript objects keyed by strings are modelled as insertion-ordered
association lists with unique keys (`TableState`); `structuredClone` is the
identity on pure values.  `id`/`timestamp` fields of operation records come
from `Date.now()`/`Math.random()` and are not modelled (no claim depends on
them).
-/

namespace SupabaseSchema

/-- `Column` from `lib/types` (one field of a table/view).  `default` values
are opaque (`z.any()` in the source); we model them as optional strings. -/
structure Column where
  title : String
  type : String
  format : String
  dflt : Option String := none
  required : Bool := false
  pk : Bool := false
  fk : Option String := none
  enumValues : Option (List String) := none
  enumTypeName : Option String := none
  comment : Option String := none
  deriving Repr, DecidableEq

instance : Inhabited Column :=
  ⟨{ title := "", type := "", format := "" }⟩

/-- Canvas position `{x, y}`. -/
structure Position where
  x : Int
  y : Int
  deriving Repr, DecidableEq

/-- `Table` from `lib/types`: value of the schema mapping. -/
structure Table where
  title : String
  schema : Option String
  is_view : Bool
  columns : List Column
  position : Position
  deriving Repr, DecidableEq

/-- `TableState`: a JavaScript object mapping table identifiers to tables,
modelled as an insertion-ordered association list with unique keys. -/
abbrev TableState := List (String × Table)

/-- `obj[key]` on a JS object: the value stored under `key`, if any. -/
def jsGet (st : TableState) (key : String) : Option Table :=
  (st.find? (fun e => e.1 = key)).map (·.2)

/-- `obj[key] = v` on a JS object: overwrite in place if the key exists
(keeping its position in the insertion order), otherwise append. -/
def jsSet (st : TableState) (key : String) (v : Table) : TableState :=
  match st with
  | [] => [(key, v)]
  | e :: rest => if e.1 = key then (key, v) :: rest else e :: jsSet rest key v

/-- `delete obj[key]` on a JS object. -/
def jsDelete (st : TableState) (key : String) : TableState :=
  st.filter (fun e => e.1 ≠ key)

/-- `Object.keys(obj)`: keys in insertion order. -/
def jsKeys (st : TableState) : List String := st.map (·.1)

/-- `parseTableIdentifier` (identical in both API routes): split on `"."`;
with several segments all but the last re-join to form the schema. -/
structure ParsedIdentifier where
  schema : Option String
  name : String
  deriving Repr, DecidableEq

/-- `str.split(sep)` for a one-character separator (JS semantics: an empty
string yields `[""]`, a trailing separator yields a trailing `""`). -/
def splitCharAux (sep : Char) : List Char → List Char → List String
  | [], acc => [String.mk acc.reverse]
  | c :: rest, acc =>
      if c = sep then String.mk acc.reverse :: splitCharAux sep rest []
      else splitCharAux sep rest (c :: acc)

def jsSplit (s : String) (sep : Char) : List String :=
  splitCharAux sep s.data []

/-- `parts.join('.')`. -/
def joinDot : List String → String
  | [] => ""
  | [s] => s
  | s :: rest => s ++ "." ++ joinDot rest

def parseTableIdentifier (tableId : String) : ParsedIdentifier :=
  let parts := jsSplit tableId '.'
  if parts.length > 1 then
    { schema := some (joinDot parts.dropLast)
      name := parts.getLastD tableId }
  else
    { schema := none, name := tableId }

/-- JavaScript `a || b` on an optional string: `b` when `a` is absent or
empty (the empty string is falsy). -/
def jsOrStr (a : Option String) (b : String) : String :=
  match a with
  | some s => if s = "" then b else s
  | none => b

/-- Column-shape input accepted by the tool calls (`columnInputSchema`):
everything but the title is optional. -/
structure ColumnInput where
  title : String
  type : Option String := none
  format : Option String := none
  dflt : Option String := none
  required : Option Bool := none
  pk : Option Bool := none
  fk : Option String := none
  enumValues : Option (List String) := none
  enumTypeName : Option String := none
  comment : Option String := none
  deriving Repr, DecidableEq

/-- `normaliseColumn` from the agent-tool route (`part_000`):
`type = col.format ?? col.type ?? 'text'`, `format = col.type ?? col.format ?? type`. -/
def normaliseColumn (col : ColumnInput) : Column :=
  let type := col.format.getD (col.type.getD "text")
  let format := col.type.getD (col.format.getD type)
  { title := col.title
    type := type
    format := format
    dflt := col.dflt
    required := col.required.getD false
    pk := col.pk.getD false
    fk := col.fk
    enumValues := col.enumValues
    enumTypeName := col.enumTypeName
    comment := col.comment }

/-- `normaliseColumn` from the legacy modify-schema route (`route.ts`):
`type = input.type ?? input.format ?? 'string'`, `format = input.format ?? type`. -/
def normaliseColumnLegacy (col : ColumnInput) : Column :=
  let type := col.type.getD (col.format.getD "string")
  let format := col.format.getD type
  { title := col.title
    type := type
    format := format
    dflt := col.dflt
    required := col.required.getD false
    pk := col.pk.getD false
    fk := col.fk
    enumValues := col.enumValues
    enumTypeName := col.enumTypeName
    comment := col.comment }

/-- The single-quote character; the source's interpolated messages wrap
identifiers in single quotes. -/
def sq : String := (Char.ofNat 39).toString

/-- JavaScript truthiness of an optional string (`undefined` and `""` are
falsy). -/
def jsTruthyOpt (o : Option String) : Bool :=
  match o with
  | some s => s ≠ ""
  | none => false

/-- Prefix test on character lists. -/
def listIsPrefix : List Char → List Char → Bool
  | [], _ => true
  | _ :: _, [] => false
  | a :: as, b :: bs => a = b && listIsPrefix as bs

/-- Infix test on character lists. -/
def listIsInfix (needle : List Char) : List Char → Bool
  | [] => needle.isEmpty
  | h :: t => listIsPrefix needle (h :: t) || listIsInfix needle t

/-- `str.includes(sub)`. -/
def jsIncludes (s sub : String) : Bool := listIsInfix sub.data s.data

/-- One of the six mutation kinds recorded in an `OperationRecord`. -/
inductive OpType where
  | createTable | dropTable | renameTable | addColumn | dropColumn | alterColumn
  deriving Repr, DecidableEq

/-- `OperationRecord` (Phase 5.2 undo/redo support).  The impure `id`
(`Date.now()`/`Math.random()`) and `timestamp` fields are not modelled. -/
structure OperationRecord where
  type : OpType
  tableId : String
  before : Option Table
  after : Option Table
  description : String
  deriving Repr, DecidableEq

/-- `cloneTable`: `structuredClone` deep copy (identity on pure values);
`undefined` input yields `null`. -/
def cloneTable (t : Option Table) : Option Table := t

/-- The per-request mutable state closed over by the agent tools. -/
structure AgentState where
  schemaState : TableState
  operationCount : Nat
  totalOperations : Nat
  operationHistory : List OperationRecord
  /-- `abortController.signal.aborted` -/
  aborted : Bool
  deriving Repr, DecidableEq

/-- `recordOperation`: append one deep-cloned before/after record to the
operation history. -/
def recordOperation (st : AgentState) (type : OpType) (tableId : String)
    (before after : Option Table) (description : String) : AgentState :=
  { st with operationHistory := st.operationHistory ++
      [{ type := type, tableId := tableId, before := cloneTable before,
         after := cloneTable after, description := description }] }

/-- Summary entry returned by `listTables`. -/
structure TableSummary where
  id : String
  schema : String
  title : String
  isView : Bool
  columnCount : Nat
  columns : Option (List Column)
  deriving Repr, DecidableEq

/-- Tool return values.  `failure`/`success` carry the `message` field;
auxiliary success payload fields that do not feed back into the schema
state (column counts, `changes` lists, `remainingTables`) are elided. -/
inductive ToolResult where
  /-- `{ ok: false, message }` -/
  | failure (message : String)
  /-- `{ ok: true, message, ... }` -/
  | success (message : String)
  /-- `{ schemas, total }` from `listSchemas` -/
  | schemasList (schemas : List String) (total : Nat)
  /-- `{ total, tables }` from `listTables` -/
  | tablesList (total : Nat) (tables : List TableSummary)
  /-- `{ ok: true, table }` from `getTableDetails` -/
  | tableDetails (table : Table)
  deriving Repr, DecidableEq

/-- `{ ok: false, message: 'Operation cancelled' }` -/
def cancelledResult : ToolResult := .failure "Operation cancelled"

/-- `new Set()` insertion: add if absent, preserving insertion order. -/
def setAdd (l : List String) (s : String) : List String :=
  if s ∈ l then l else l ++ [s]

structure ListSchemasArgs where
  includeSystem : Option Bool := none
  deriving Repr, DecidableEq

/-- `listSchemas` tool: collect `table.schema || key.split('.')[0] || 'public'`
over all entries, always add `public`, and filter system schemas unless
requested. -/
def execListSchemas (args : ListSchemasArgs) (st : AgentState) :
    ToolResult × AgentState :=
  if st.aborted then (cancelledResult, st) else
  let includeSystem := args.includeSystem.getD false
  let schemas := st.schemaState.foldl
    (fun acc e =>
      setAdd acc (jsOrStr e.2.schema
        (jsOrStr (some ((jsSplit e.1 '.').headD "")) "public")))
    []
  let schemas := setAdd schemas "public"
  (.schemasList
    (schemas.filter (fun s =>
      includeSystem || !(["pg_catalog", "information_schema"].contains s)))
    schemas.length, st)

structure ListTablesArgs where
  schema : Option String := none
  search : Option String := none
  includeColumns : Option Bool := none
  limit : Option Nat := none
  offset : Option Nat := none
  deriving Repr, DecidableEq

/-- `listTables` tool: filter by schema and search term, slice by
offset/limit, and bump `totalOperations` to at least the filtered total. -/
def execListTables (args : ListTablesArgs) (st : AgentState) :
    ToolResult × AgentState :=
  if st.aborted then (cancelledResult, st) else
  let includeColumns := args.includeColumns.getD false
  let limit := args.limit.getD 100
  let offset := args.offset.getD 0
  let filtered := st.schemaState.filter (fun e =>
    let tableSchema := jsOrStr e.2.schema
      (if jsIncludes e.1 "." then (jsSplit e.1 '.').headD "" else "public")
    (match args.schema with
      | some s => tableSchema = s
      | none => true) &&
    (match args.search with
      | some s => jsIncludes (tableSchema ++ "." ++ e.2.title).toLower s.toLower
      | none => true))
  let sliced := (filtered.drop offset).take limit
  let result := ToolResult.tablesList filtered.length
    (sliced.map (fun e =>
      { id := e.1
        schema := jsOrStr e.2.schema "public"
        title := e.2.title
        isView := e.2.is_view
        columnCount := e.2.columns.length
        columns := if includeColumns then some e.2.columns else none }))
  let st := if filtered.length > 0 then
      { st with totalOperations := max st.totalOperations filtered.length }
    else st
  (result, st)

structure GetTableArgs where
  tableId : String
  deriving Repr, DecidableEq

/-- `getTableDetails` tool. -/
def execGetTableDetails (args : GetTableArgs) (st : AgentState) :
    ToolResult × AgentState :=
  if st.aborted then (cancelledResult, st) else
  match jsGet st.schemaState args.tableId with
  | none =>
      (.failure ("Table " ++ sq ++ args.tableId ++ sq ++ " not found"), st)
  | some table => (.tableDetails table, st)

structure CreateTableArgs where
  tableId : String
  columns : List ColumnInput
  isView : Option Bool := none
  deriving Repr, DecidableEq

/-- `createTable` tool: insert/replace the table entry, preserving a prior
position, and record the operation. -/
def execCreateTable (args : CreateTableArgs) (st : AgentState) :
    ToolResult × AgentState :=
  if st.aborted then (cancelledResult, st) else
  let isView := args.isView.getD false
  let st := { st with operationCount := st.operationCount + 1 }
  let parsed := parseTableIdentifier args.tableId
  let normalizedColumns := args.columns.map normaliseColumn
  let existing := jsGet st.schemaState args.tableId
  let beforeState := cloneTable existing
  let table : Table :=
    { title := (parseTableIdentifier args.tableId).name
      schema := some (jsOrStr parsed.schema "public")
      is_view := isView
      columns := normalizedColumns
      position :=
        match existing with
        | some e => e.position
        | none =>
            { x := 100 + 50 * (Int.ofNat st.schemaState.length)
              y := 100 + 50 * (Int.ofNat st.schemaState.length) } }
  let st := { st with schemaState := jsSet st.schemaState args.tableId table }
  let kind := if isView then "view" else "table"
  let st := recordOperation st .createTable args.tableId beforeState (some table)
    ("Created " ++ kind ++ " " ++ sq ++ args.tableId ++ sq ++ " with " ++
      toString normalizedColumns.length ++ " columns")
  (.success ("Created " ++ kind ++ " " ++ sq ++ args.tableId ++ sq), st)

structure DropTableArgs where
  tableId : String
  deriving Repr, DecidableEq

/-- `dropTable` tool. -/
def execDropTable (args : DropTableArgs) (st : AgentState) :
    ToolResult × AgentState :=
  if st.aborted then (cancelledResult, st) else
  match jsGet st.schemaState args.tableId with
  | none =>
      (.failure ("Table " ++ sq ++ args.tableId ++ sq ++ " not found"), st)
  | some table =>
      let st := { st with operationCount := st.operationCount + 1 }
      let beforeState := cloneTable (some table)
      let st := { st with schemaState := jsDelete st.schemaState args.tableId }
      let st := recordOperation st .dropTable args.tableId beforeState none
        ("Dropped table " ++ sq ++ args.tableId ++ sq)
      (.success ("Dropped table " ++ sq ++ args.tableId ++ sq), st)

structure RenameTableArgs where
  fromTableId : String
  toTableId : String
  deriving Repr, DecidableEq

/-- `renameTable` tool: move the entry to the new key, re-deriving
`title`/`schema` from the new identifier. -/
def execRenameTable (args : RenameTableArgs) (st : AgentState) :
    ToolResult × AgentState :=
  if st.aborted then (cancelledResult, st) else
  match jsGet st.schemaState args.fromTableId with
  | none =>
      (.failure ("Table " ++ sq ++ args.fromTableId ++ sq ++ " not found"), st)
  | some source =>
      let st := { st with operationCount := st.operationCount + 1 }
      let beforeState := cloneTable (some source)
      let parsed := parseTableIdentifier args.toTableId
      let updated : Table :=
        { source with
          schema := some (jsOrStr parsed.schema (jsOrStr source.schema "public"))
          title := (parseTableIdentifier args.toTableId).name }
      let st := { st with
        schemaState := jsSet (jsDelete st.schemaState args.fromTableId)
          args.toTableId updated }
      let st := recordOperation st .renameTable args.toTableId beforeState
        (some updated)
        ("Renamed table " ++ sq ++ args.fromTableId ++ sq ++ " to " ++ sq ++
          args.toTableId ++ sq)
      (.success ("Renamed " ++ sq ++ args.fromTableId ++ sq ++ " to " ++ sq ++
        args.toTableId ++ sq), st)

structure AddColumnArgs where
  tableId : String
  column : ColumnInput
  deriving Repr, DecidableEq

/-- `addColumn` tool: append one normalized column unless the title already
exists. -/
def execAddColumn (args : AddColumnArgs) (st : AgentState) :
    ToolResult × AgentState :=
  if st.aborted then (cancelledResult, st) else
  match jsGet st.schemaState args.tableId with
  | none =>
      (.failure ("Table " ++ sq ++ args.tableId ++ sq ++ " not found"), st)
  | some table =>
      let st := { st with operationCount := st.operationCount + 1 }
      let beforeState := cloneTable (some table)
      let normalizedColumn := normaliseColumn args.column
      let existingColumns := table.columns
      if existingColumns.any (fun c => c.title = normalizedColumn.title) then
        (.failure ("Column " ++ sq ++ normalizedColumn.title ++ sq ++
          " already exists in " ++ sq ++ args.tableId ++ sq), st)
      else
        let newTable := { table with columns := existingColumns ++ [normalizedColumn] }
        let st := { st with schemaState := jsSet st.schemaState args.tableId newTable }
        let st := recordOperation st .addColumn args.tableId beforeState
          (some newTable)
          ("Added column " ++ sq ++ normalizedColumn.title ++ sq ++ " to " ++
            sq ++ args.tableId ++ sq)
        (.success ("Added column " ++ sq ++ normalizedColumn.title ++ sq ++
          " to " ++ sq ++ args.tableId ++ sq), st)

structure DropColumnArgs where
  tableId : String
  columnName : String
  deriving Repr, DecidableEq

/-- `dropColumn` tool: filter out every column whose `title` equals
`columnName`; report failure when nothing matched (the reassignment of the
filtered — unchanged — array still happens first, as in the source). -/
def execDropColumn (args : DropColumnArgs) (st : AgentState) :
    ToolResult × AgentState :=
  if st.aborted then (cancelledResult, st) else
  match jsGet st.schemaState args.tableId with
  | none =>
      (.failure ("Table " ++ sq ++ args.tableId ++ sq ++ " not found"), st)
  | some table =>
      let st := { st with operationCount := st.operationCount + 1 }
      let beforeState := cloneTable (some table)
      let originalLength := table.columns.length
      let newTable :=
        { table with columns := table.columns.filter (fun c => c.title ≠ args.columnName) }
      let st := { st with schemaState := jsSet st.schemaState args.tableId newTable }
      if newTable.columns.length = originalLength then
        (.failure ("Column " ++ sq ++ args.columnName ++ sq ++ " not found in " ++
          sq ++ args.tableId ++ sq), st)
      else
        let st := recordOperation st .dropColumn args.tableId beforeState
          (some newTable)
          ("Dropped column " ++ sq ++ args.columnName ++ sq ++ " from " ++ sq ++
            args.tableId ++ sq)
        (.success ("Dropped column " ++ sq ++ args.columnName ++ sq ++
          " from " ++ sq ++ args.tableId ++ sq), st)

/-- Column patch accepted by `alterColumn` (`undefined` fields are absent). -/
structure ColumnPatch where
  title : Option String := none
  type : Option String := none
  format : Option String := none
  dflt : Option String := none
  required : Option Bool := none
  pk : Option Bool := none
  fk : Option String := none
  enumValues : Option (List String) := none
  enumTypeName : Option String := none
  comment : Option String := none
  deriving Repr, DecidableEq

/-- `{...originalColumn, ...definedEntries(patch)}`: every defined patch
field overrides the original. -/
def applyPatch (orig : Column) (p : ColumnPatch) : Column :=
  { title := p.title.getD orig.title
    type := p.type.getD orig.type
    format := p.format.getD orig.format
    dflt := match p.dflt with | some v => some v | none => orig.dflt
    required := p.required.getD orig.required
    pk := p.pk.getD orig.pk
    fk := match p.fk with | some v => some v | none => orig.fk
    enumValues := match p.enumValues with | some v => some v | none => orig.enumValues
    enumTypeName := match p.enumTypeName with | some v => some v | none => orig.enumTypeName
    comment := match p.comment with | some v => some v | none => orig.comment }

structure AlterColumnArgs where
  tableId : String
  columnName : String
  patch : ColumnPatch
  deriving Repr, DecidableEq

/-- `alterColumn` tool: merge defined patch fields, then re-derive the
`type`/`format` pair when either was (truthily) patched. -/
def execAlterColumn (args : AlterColumnArgs) (st : AgentState) :
    ToolResult × AgentState :=
  if st.aborted then (cancelledResult, st) else
  match jsGet st.schemaState args.tableId with
  | none =>
      (.failure ("Table " ++ sq ++ args.tableId ++ sq ++ " not found"), st)
  | some table =>
      let st := { st with operationCount := st.operationCount + 1 }
      let beforeState := cloneTable (some table)
      match table.columns.findIdx? (fun c => c.title = args.columnName) with
      | none =>
          (.failure ("Column " ++ sq ++ args.columnName ++ sq ++
            " not found in " ++ sq ++ args.tableId ++ sq), st)
      | some columnIndex =>
          let originalColumn := table.columns.getD columnIndex default
          let updatedColumn := applyPatch originalColumn args.patch
          let updatedColumn :=
            if jsTruthyOpt args.patch.type || jsTruthyOpt args.patch.format then
              { updatedColumn with
                type := args.patch.format.getD
                  (args.patch.type.getD originalColumn.type)
                format := args.patch.type.getD
                  (args.patch.format.getD originalColumn.format) }
            else updatedColumn
          let newTable :=
            { table with columns := table.columns.set columnIndex updatedColumn }
          let st := { st with schemaState := jsSet st.schemaState args.tableId newTable }
          let st := recordOperation st .alterColumn args.tableId beforeState
            (some newTable)
            ("Altered column " ++ sq ++ args.columnName ++ sq ++ " in " ++ sq ++
              args.tableId ++ sq)
          (.success ("Updated column " ++ sq ++ args.columnName ++ sq ++
            " in " ++ sq ++ args.tableId ++ sq), st)

/-- One model-issued tool invocation. -/
inductive ToolCall where
  | listSchemas (args : ListSchemasArgs)
  | listTables (args : ListTablesArgs)
  | getTableDetails (args : GetTableArgs)
  | createTable (args : CreateTableArgs)
  | dropTable (args : DropTableArgs)
  | renameTable (args : RenameTableArgs)
  | addColumn (args : AddColumnArgs)
  | dropColumn (args : DropColumnArgs)
  | alterColumn (args : AlterColumnArgs)
  deriving Repr, DecidableEq

/-- Dispatch one tool call against the shared per-request state. -/
def execTool : ToolCall → AgentState → ToolResult × AgentState
  | .listSchemas args, st => execListSchemas args st
  | .listTables args, st => execListTables args st
  | .getTableDetails args, st => execGetTableDetails args st
  | .createTable args, st => execCreateTable args st
  | .dropTable args, st => execDropTable args st
  | .renameTable args, st => execRenameTable args st
  | .addColumn args, st => execAddColumn args st
  | .dropColumn args, st => execDropColumn args st
  | .alterColumn args, st => execAlterColumn args st

/-- Run a sequence of tool calls, returning the results in call order and
the final state. -/
def runTrace : List ToolCall → AgentState → List ToolResult × AgentState
  | [], st => ([], st)
  | c :: cs, st =>
      let (r, st') := execTool c st
      let (rs, st'') := runTrace cs st'
      (r :: rs, st'')

@[simp]
theorem jsGet_nil (k : String) : jsGet [] k = none := rfl

theorem jsGet_cons (e : String × Table) (rest : TableState) (k : String) :
    jsGet (e :: rest) k = if e.1 = k then some e.2 else jsGet rest k := by
  by_cases h : e.1 = k <;> simp [jsGet, List.find?, h]

theorem jsGet_jsSet (st : TableState) (k k' : String) (v : Table) :
    jsGet (jsSet st k v) k' = if k' = k then some v else jsGet st k' := by
  induction st with
  | nil =>
      by_cases h : k' = k
      · simp [jsSet, jsGet_cons, h]
      · simp [jsSet, jsGet_cons, h, Ne.symm h]
  | cons e rest ih =>
      by_cases hek : e.1 = k
      · simp only [jsSet, if_pos hek]
        by_cases h : k' = k
        · simp [jsGet_cons, h]
        · have he' : e.1 ≠ k' := by rw [hek]; exact Ne.symm h
          simp [jsGet_cons, h, Ne.symm h, he']
      · simp only [jsSet, if_neg hek]
        rw [jsGet_cons, jsGet_cons, ih]
        by_cases hek' : e.1 = k'
        · have h : k' ≠ k := fun hc => hek (hek'.trans hc)
          simp [hek', h]
        · simp [hek']

theorem jsGet_jsDelete (st : TableState) (k k' : String) :
    jsGet (jsDelete st k) k' = if k' = k then none else jsGet st k' := by
  induction st with
  | nil => by_cases h : k' = k <;> simp [jsDelete, h]
  | cons e rest ih =>
      by_cases hek : e.1 = k
      · have hd : (decide ¬(e.1 = k)) = false := by simp [hek]
        simp only [jsDelete, List.filter, hd]
        simp only [jsDelete] at ih
        rw [ih]
        by_cases h : k' = k
        · simp [h]
        · have he' : e.1 ≠ k' := by rw [hek]; exact Ne.symm h
          simp [h, jsGet_cons, he']
      · have hd : (decide ¬(e.1 = k)) = true := by simp [hek]
        simp only [jsDelete, List.filter, hd]
        simp only [jsDelete] at ih
        simp only [decide_not] at ih ⊢
        rw [jsGet_cons, jsGet_cons]
        by_cases hek' : e.1 = k'
        · have h : k' ≠ k := fun hc => hek (hek'.trans hc)
          simp [hek', h]
        · simp [hek', ih]

/-- Overwriting a key with the value it already holds is a no-op. -/
theorem jsSet_same (st : TableState) (k : String) (v : Table)
    (h : jsGet st k = some v) : jsSet st k v = st := by
  induction st with
  | nil => simp at h
  | cons e rest ih =>
      obtain ⟨e1, e2⟩ := e
      rw [jsGet_cons] at h
      by_cases hek : e1 = k
      · simp only [if_pos hek] at h
        simp only [Option.some_inj] at h
        simp [jsSet, hek, ← h]
      · simp only [if_neg hek] at h
        simp [jsSet, hek, ih h]

theorem runTrace_cons (c : ToolCall) (cs : List ToolCall) (st : AgentState) :
    runTrace (c :: cs) st =
      ((execTool c st).1 :: (runTrace cs (execTool c st).2).1,
        (runTrace cs (execTool c st).2).2) := by
  simp [runTrace]

/-- Every tool's execute path checks the abort signal first. -/
theorem execTool_aborted (call : ToolCall) (st : AgentState)
    (h : st.aborted = true) : execTool call st = (cancelledResult, st) := by
  cases call <;>
    simp [execTool, execListSchemas, execListTables, execGetTableDetails,
      execCreateTable, execDropTable, execRenameTable, execAddColumn,
      execDropColumn, execAlterColumn, h]

theorem runTrace_aborted (calls : List ToolCall) (st : AgentState)
    (h : st.aborted = true) :
    runTrace calls st = (calls.map (fun _ => cancelledResult), st) := by
  induction calls with
  | nil => simp [runTrace]
  | cons c cs ih => rw [runTrace_cons, execTool_aborted c st h]; simp [ih]

/-- `{ ok: true }` mutation-tool success (read-only tool payloads and
failures are not mutation successes). -/
def ToolResult.isMutationSuccess : ToolResult → Bool
  | .success _ => true
  | _ => false

/-- A `renameTable` call that moves the entry to a different key. -/
def keyChangingRename : ToolCall → Bool
  | .renameTable args => args.fromTableId ≠ args.toTableId
  | _ => false

/-- Undo one recorded operation by applying its `before` snapshot at the
record's `tableId` (restore the snapshot, or delete the entry when the
snapshot is `null`). -/
def applyBefore (tables : TableState) (r : OperationRecord) : TableState :=
  match r.before with
  | some t => jsSet tables r.tableId t
  | none => jsDelete tables r.tableId

/-- Apply every record's `before` value in reverse chronological order. -/
def replayBefores (tables : TableState) (records : List OperationRecord) :
    TableState :=
  records.foldr (fun r acc => applyBefore acc r) tables

/-- Structural equality of two JS objects: same value under every key
(property order is irrelevant to structural comparison). -/
def MapEq (s t : TableState) : Prop := ∀ k, jsGet s k = jsGet t k

theorem MapEq.refl (s : TableState) : MapEq s s := fun _ => rfl

theorem MapEq.trans {s t u : TableState} (h1 : MapEq s t) (h2 : MapEq t u) :
    MapEq s u := fun k => (h1 k).trans (h2 k)

/-- Setting back the looked-up value undoes an overwrite. -/
theorem mapEq_undo_set (s : TableState) (k : String) (v t : Table)
    (h : jsGet s k = some t) : MapEq (jsSet (jsSet s k v) k t) s := by
  intro k'
  rw [jsGet_jsSet, jsGet_jsSet]
  by_cases hk : k' = k
  · rw [if_pos hk, hk, h]
  · rw [if_neg hk, if_neg hk]

/-- Deleting a freshly inserted key undoes the insertion. -/
theorem mapEq_undo_set_none (s : TableState) (k : String) (v : Table)
    (h : jsGet s k = none) : MapEq (jsDelete (jsSet s k v) k) s := by
  intro k'
  rw [jsGet_jsDelete, jsGet_jsSet]
  by_cases hk : k' = k
  · rw [if_pos hk, hk, h]
  · rw [if_neg hk, if_neg hk]

/-- Re-inserting the looked-up value undoes a deletion (up to property
order). -/
theorem mapEq_undo_delete (s : TableState) (k : String) (t : Table)
    (h : jsGet s k = some t) : MapEq (jsSet (jsDelete s k) k t) s := by
  intro k'
  rw [jsGet_jsSet, jsGet_jsDelete]
  by_cases hk : k' = k
  · rw [if_pos hk, hk, h]
  · rw [if_neg hk, if_neg hk]

/-- Undo of a same-key rename (delete, re-insert under the same key, then
restore the snapshot). -/
theorem mapEq_undo_rename_self (s : TableState) (k : String) (v t : Table)
    (h : jsGet s k = some t) :
    MapEq (jsSet (jsSet (jsDelete s k) k v) k t) s := by
  intro k'
  rw [jsGet_jsSet, jsGet_jsSet, jsGet_jsDelete]
  by_cases hk : k' = k
  · rw [if_pos hk, hk, h]
  · rw [if_neg hk, if_neg hk, if_neg hk]

theorem applyBefore_congr {s t : TableState} (h : MapEq s t)
    (r : OperationRecord) : MapEq (applyBefore s r) (applyBefore t r) := by
  intro k'
  unfold applyBefore
  cases r.before with
  | some v => rw [jsGet_jsSet, jsGet_jsSet, h k']
  | none => rw [jsGet_jsDelete, jsGet_jsDelete, h k']

instance : Inhabited OperationRecord :=
  ⟨{ type := .createTable, tableId := "", before := none, after := none,
     description := "" }⟩

/-- One successful mutation tool call appends exactly one record; when the
call is not a key-changing rename, the record's `before` snapshot undoes
it. -/
theorem step_undo (c : ToolCall) (st : AgentState)
    (hab : st.aborted = false)
    (hok : ((execTool c st).1).isMutationSuccess = true) :
    (execTool c st).2.operationHistory =
      st.operationHistory ++ [(execTool c st).2.operationHistory.getLastD default] ∧
    (keyChangingRename c = false →
      MapEq (applyBefore (execTool c st).2.schemaState
        ((execTool c st).2.operationHistory.getLastD default)) st.schemaState) ∧
    (execTool c st).2.aborted = false := by
  cases c with
  | listSchemas args =>
      simp [execTool, execListSchemas, hab, ToolResult.isMutationSuccess] at hok
  | listTables args =>
      simp [execTool, execListTables, hab, ToolResult.isMutationSuccess] at hok
  | getTableDetails args =>
      rcases hcase : jsGet st.schemaState args.tableId with _ | t <;>
        simp [execTool, execGetTableDetails, hab, hcase,
          ToolResult.isMutationSuccess] at hok
  | createTable args =>
      rcases hcase : jsGet st.schemaState args.tableId with _ | old
      · refine ⟨?_, fun _ => ?_, ?_⟩ <;>
          simp [execTool, execCreateTable, hab, hcase, recordOperation,
            cloneTable, applyBefore]
        exact mapEq_undo_set_none _ _ _ hcase
      · refine ⟨?_, fun _ => ?_, ?_⟩ <;>
          simp [execTool, execCreateTable, hab, hcase, recordOperation,
            cloneTable, applyBefore]
        exact mapEq_undo_set _ _ _ _ hcase
  | dropTable args =>
      rcases hcase : jsGet st.schemaState args.tableId with _ | t
      · simp [execTool, execDropTable, hab, hcase,
          ToolResult.isMutationSuccess] at hok
      · refine ⟨?_, fun _ => ?_, ?_⟩ <;>
          simp [execTool, execDropTable, hab, hcase, recordOperation,
            cloneTable, applyBefore]
        exact mapEq_undo_delete _ _ _ hcase
  | renameTable args =>
      rcases hcase : jsGet st.schemaState args.fromTableId with _ | src
      · simp [execTool, execRenameTable, hab, hcase,
          ToolResult.isMutationSuccess] at hok
      · refine ⟨?_, fun hnr => ?_, ?_⟩ <;>
          simp [execTool, execRenameTable, hab, hcase, recordOperation,
            cloneTable, applyBefore]
        have heq : args.fromTableId = args.toTableId := by
          simpa [keyChangingRename] using hnr
        rw [← heq]
        exact mapEq_undo_rename_self _ _ _ _ hcase
  | addColumn args =>
      rcases hcase : jsGet st.schemaState args.tableId with _ | t
      · simp [execTool, execAddColumn, hab, hcase,
          ToolResult.isMutationSuccess] at hok
      · by_cases hdup : (t.columns.any
            (fun col => col.title = (normaliseColumn args.column).title)) = true
        · simp [execTool, execAddColumn, hab, hcase, hdup,
            ToolResult.isMutationSuccess] at hok
        · refine ⟨?_, fun _ => ?_, ?_⟩ <;>
            simp [execTool, execAddColumn, hab, hcase, hdup, recordOperation,
              cloneTable, applyBefore]
          exact mapEq_undo_set _ _ _ _ hcase
  | dropColumn args =>
      rcases hcase : jsGet st.schemaState args.tableId with _ | t
      · simp [execTool, execDropColumn, hab, hcase,
          ToolResult.isMutationSuccess] at hok
      · simp only [execTool, execDropColumn, hab, Bool.false_eq_true, if_false,
          hcase] at hok
        split at hok
        · simp [ToolResult.isMutationSuccess] at hok
        · next hcond =>
            refine ⟨?_, fun _ => ?_, ?_⟩ <;>
              (simp only [execTool, execDropColumn, hab, Bool.false_eq_true,
                 if_false, hcase]
               rw [if_neg hcond]
               simp [recordOperation, cloneTable, applyBefore])
            exact mapEq_undo_set _ _ _ _ hcase
  | alterColumn args =>
      rcases hcase : jsGet st.schemaState args.tableId with _ | t
      · simp [execTool, execAlterColumn, hab, hcase,
          ToolResult.isMutationSuccess] at hok
      · rcases hidx : t.columns.findIdx?
            (fun col => col.title = args.columnName) with _ | i
        · simp [execTool, execAlterColumn, hab, hcase, hidx,
            ToolResult.isMutationSuccess] at hok
        · refine ⟨?_, fun _ => ?_, ?_⟩ <;>
            simp [execTool, execAlterColumn, hab, hcase, hidx, recordOperation,
              cloneTable, applyBefore]
          exact mapEq_undo_set _ _ _ _ hcase

/-- Along a run of successful mutation calls the history grows by exactly
one record per call, and — when no call moves a table to a different key —
replaying the new records' `before` snapshots in reverse reconstructs the
initial schema. -/
theorem runTrace_history (calls : List ToolCall) (st : AgentState)
    (hab : st.aborted = false)
    (hok : ∀ r ∈ (runTrace calls st).1, r.isMutationSuccess = true) :
    ∃ recs, (runTrace calls st).2.operationHistory =
        st.operationHistory ++ recs ∧
      recs.length = calls.length ∧
      ((∀ c ∈ calls, keyChangingRename c = false) →
        MapEq (replayBefores (runTrace calls st).2.schemaState recs)
          st.schemaState) ∧
      (runTrace calls st).2.aborted = false := by
  induction calls generalizing st with
  | nil => exact ⟨[], by simp [runTrace], rfl, fun _ => MapEq.refl _, hab⟩
  | cons c cs ih =>
      rw [runTrace_cons] at hok ⊢
      dsimp only at hok ⊢
      have hok1 : ((execTool c st).1).isMutationSuccess = true :=
        hok _ (List.mem_cons_self _ _)
      have hokrest : ∀ r ∈ (runTrace cs (execTool c st).2).1,
          r.isMutationSuccess = true :=
        fun r hr => hok r (List.mem_cons_of_mem _ hr)
      obtain ⟨hh, hundo, hab1⟩ := step_undo c st hab hok1
      set rec := (execTool c st).2.operationHistory.getLastD default with hrec
      obtain ⟨recs, hh2, hlen2, hrep2, hab2⟩ := ih (execTool c st).2 hab1 hokrest
      refine ⟨rec :: recs, ?_, ?_, ?_, hab2⟩
      · rw [hh2, hh, List.append_assoc, List.singleton_append]
      · simp [hlen2]
      · intro hnr
        have hrest := hrep2 (fun c' hc' => hnr c' (List.mem_cons_of_mem _ hc'))
        have h1 : MapEq (replayBefores (runTrace cs (execTool c st).2).2.schemaState
            (rec :: recs)) (applyBefore (execTool c st).2.schemaState rec) := by
          unfold replayBefores at hrest ⊢
          simp only [List.foldr_cons]
          exact applyBefore_congr hrest rec
        exact h1.trans (hundo (hnr c (List.mem_cons_self _ _)))

end SupabaseSchema

namespace SupabaseSchema

/-- FK dependencies of one table in `ModalSQL`/`ModalTypes`:
`value.columns?.map(v => v.fk?.split('.')[0]).filter(v => typeof v === 'string').filter(v => table != v)`
— the referenced table name of every `fk` string, self-references
excluded. -/
def dependenciesOf (tableId : String) (t : Table) : List String :=
  (t.columns.filterMap (fun c => c.fk.map (fun s => (jsSplit s '.').headD ""))).filter
    (fun v => v ≠ tableId)

/-- The `dependencies` object, read back by key. -/
def depsIn (tables : TableState) (key : String) : List String :=
  match jsGet tables key with
  | some t => dependenciesOf key t
  | none => []

/-- One `for (let i in keys)` pass of the dependency orderer.  `keys.splice(+i, 1)`
inside the `for...in` shifts the following element onto the already-visited
index `i`, so the element immediately after a removed one is skipped for
the rest of the pass (it stays in `keys` for the next pass).  `output`
grows during the pass and the `every ... includes` test sees the growth. -/
def orderPass (deps : String → List String) (output : List String) :
    List String → List String × List String
  | [] => ([], output)
  | [k] =>
      if (deps k).all (fun d => output.contains d) then ([], output ++ [k])
      else ([k], output)
  | k :: next :: rest =>
      if (deps k).all (fun d => output.contains d) then
        let p := orderPass deps (output ++ [k]) rest
        (next :: p.1, p.2)
      else
        let p := orderPass deps output (next :: rest)
        (k :: p.1, p.2)

/-- The `while (keys.length)` loop.  The source has no cycle guard, so the
loop is modelled with explicit fuel; `none` means the loop was still
running when the fuel ran out. -/
def orderLoop (deps : String → List String) :
    Nat → List String → List String → Option (List String)
  | 0, _, _ => none
  | fuel + 1, keys, output =>
      if keys.isEmpty then some output
      else
        let p := orderPass deps output keys
        orderLoop deps fuel p.1 p.2

/-- Dependency ordering of a whole `TableState` (`Object.keys` order in,
emission order out). -/
def orderTables (fuel : Nat) (tables : TableState) : Option (List String) :=
  orderLoop (depsIn tables) fuel (jsKeys tables) []

/-- `reservedKeyword` from `ModalSQL` (the source lists `user` twice). -/
def reservedKeyword : List String :=
  ["user", "database", "default", "dictionary", "files", "group", "index",
   "level", "max", "min", "password", "procedure", "table", "user", "view"]

/-- `v.fk.split('.')[0]`. -/
def fkTable (fk : String) : String := (jsSplit fk '.').headD ""

/-- `v.fk.split('.')[1]`; a dot-free FK string makes this `undefined`,
which JS interpolates as the text `undefined`. -/
def fkColumn (fk : String) : String := ((jsSplit fk '.').drop 1).headD "undefined"

/-- One column line of the generated `create table`, following the `code +=`
sequence of `ModalSQL` exactly (note the dangling `else`: `not null` is the
alternative of the `uuid_generate_v4` branch only). -/
def columnSQL (c : Column) : String :=
  let s := if reservedKeyword.contains c.title then "  \"" ++ c.title ++ "\""
    else "  " ++ c.title
  let s := if c.format = "integer" ∧ c.pk = true then s ++ " serial"
    else s ++ " " ++ c.format
  let s := match c.fk with
    | some fk => s ++ " references " ++ fkTable fk ++ " (" ++ fkColumn fk ++ ")"
    | none => s
  let s := if c.format = "date" ∨ jsIncludes c.format "timestamp" = true then
      s ++ " default now()"
    else s
  let s := if c.required = true ∧ c.format = "uuid" ∧ c.fk = none then
      s ++ " default uuid_generate_v4()"
    else if c.required = true ∧ c.fk = none then s ++ " not null"
    else s
  if c.pk = true then s ++ " primary key" else s

/-- The column list: every line but the last ends `,\n`, the last ends `\n`. -/
def columnsSQL : List Column → String
  | [] => ""
  | [c] => columnSQL c ++ "\n"
  | c :: rest => columnSQL c ++ ",\n" ++ columnsSQL rest

/-- One `create table` statement. -/
def tableSQL (tableId : String) (t : Table) : String :=
  "create table " ++ tableId ++ " (\n" ++ columnsSQL t.columns ++ ");\n\n"

/-- `output.forEach(...)`: emit DDL in dependency order, skipping views. -/
def emitTables (tables : TableState) (order : List String) : String :=
  order.foldl
    (fun code v =>
      match jsGet tables v with
      | none => code
      | some t => if t.is_view then code else code ++ tableSQL v t)
    ""

/-- The whole `exportedCode` computation of `ModalSQL`. -/
def generateSQL (fuel : Nat) (tables : TableState) : Option String :=
  (orderTables fuel tables).map (emitTables tables)

/-- Invariant of one orderer pass: keys stay distinct and disjoint from the
output, every emitted table's dependencies were already emitted, and the
output never places a table before one of its dependencies. -/
theorem orderPass_inv (deps : String → List String) (output keys : List String)
    (h1 : keys.Nodup) (h2 : ∀ k ∈ keys, k ∉ output)
    (h3 : ∀ a ∈ output, ∀ d ∈ deps a, d ∈ output)
    (h4 : List.Pairwise (fun a b => b ∉ deps a) output) :
    (orderPass deps output keys).1.Nodup ∧
    (∀ x ∈ (orderPass deps output keys).1, x ∈ keys) ∧
    (∀ x ∈ (orderPass deps output keys).2, x ∈ output ∨ x ∈ keys) ∧
    (∀ k ∈ (orderPass deps output keys).1, k ∉ (orderPass deps output keys).2) ∧
    (∀ a ∈ (orderPass deps output keys).2, ∀ d ∈ deps a,
      d ∈ (orderPass deps output keys).2) ∧
    List.Pairwise (fun a b => b ∉ deps a) (orderPass deps output keys).2 := by
  induction output, keys using orderPass.induct deps with
  | case1 output =>
      simp only [orderPass]
      exact ⟨List.nodup_nil, by simp, fun x hx => Or.inl hx, by simp, h3, h4⟩
  | case2 output k hcond =>
      simp only [orderPass, if_pos hcond]
      have hko : k ∉ output := h2 k (by simp)
      have hdep : ∀ d ∈ deps k, d ∈ output := by
        intro d hd
        have := List.all_eq_true.mp hcond d hd
        simpa using this
      refine ⟨List.nodup_nil, by simp, ?_, by simp, ?_, ?_⟩
      · intro x hx
        rcases List.mem_append.mp hx with h | h
        · exact Or.inl h
        · exact Or.inr (by simpa using h)
      · intro a ha d hd
        rcases List.mem_append.mp ha with h | h
        · exact List.mem_append_left _ (h3 a h d hd)
        · have : a = k := by simpa using h
          subst this
          exact List.mem_append_left _ (hdep d hd)
      · rw [List.pairwise_append]
        refine ⟨h4, List.pairwise_singleton _ _, ?_⟩
        intro a ha b hb
        have : b = k := by simpa using hb
        subst this
        intro hcontra
        exact hko (h3 a ha b hcontra)
  | case3 output k hcond =>
      simp only [orderPass, if_neg hcond]
      exact ⟨List.nodup_singleton k, by simp, fun x hx => Or.inl hx,
        by simpa using h2 k (by simp), h3, h4⟩
  | case4 output k next rest hcond ih =>
      have hknr : k ∉ next :: rest := (List.nodup_cons.mp h1).1
      have hnodup' : (next :: rest).Nodup := (List.nodup_cons.mp h1).2
      have hnext_rest : next ∉ rest := (List.nodup_cons.mp hnodup').1
      have hko : k ∉ output := h2 k (by simp)
      have hno : next ∉ output := h2 next (by simp)
      have hdep : ∀ d ∈ deps k, d ∈ output := by
        intro d hd
        have := List.all_eq_true.mp hcond d hd
        simpa using this
      have hpw' : List.Pairwise (fun a b => b ∉ deps a) (output ++ [k]) := by
        rw [List.pairwise_append]
        refine ⟨h4, List.pairwise_singleton _ _, ?_⟩
        intro a ha b hb
        have : b = k := by simpa using hb
        subst this
        intro hcontra
        exact hko (h3 a ha b hcontra)
      obtain ⟨ihN, ihS, ihL, ihD, ihC, ihP⟩ := ih
        (List.nodup_cons.mp hnodup').2
        (by
          intro k' hk'
          rw [List.mem_append]
          rintro (h | h)
          · exact h2 k' (by simp [hk']) h
          · have : k' = k := by simpa using h
            subst this
            exact hknr (by simp [hk']))
        (by
          intro a ha d hd
          rcases List.mem_append.mp ha with h | h
          · exact List.mem_append_left _ (h3 a h d hd)
          · have : a = k := by simpa using h
            subst this
            exact List.mem_append_left _ (hdep d hd))
        hpw'
      simp only [orderPass, if_pos hcond]
      refine ⟨?_, ?_, ?_, ?_, ihC, ihP⟩
      · exact List.nodup_cons.mpr ⟨fun hc => hnext_rest (ihS next hc), ihN⟩
      · intro x hx
        rcases List.mem_cons.mp hx with h | h
        · simp [h]
        · simp [List.mem_cons.mpr (Or.inr (List.mem_cons.mpr (Or.inr (ihS x h))))]
      · intro x hx
        rcases ihL x hx with h | h
        · rcases List.mem_append.mp h with h | h
          · exact Or.inl h
          · have : x = k := by simpa using h
            exact Or.inr (by simp [this])
        · exact Or.inr (by simp [h])
      · intro k' hk' hc
        rcases List.mem_cons.mp hk' with h | h
        · subst h
          rcases ihL k' hc with h | h
          · rcases List.mem_append.mp h with h | h
            · exact hno h
            · have : k' = k := by simpa using h
              subst this
              exact hknr (by simp)
          · exact hnext_rest h
        · exact ihD k' h hc
  | case5 output k next rest hcond ih =>
      have hknr : k ∉ next :: rest := (List.nodup_cons.mp h1).1
      have hnodup' : (next :: rest).Nodup := (List.nodup_cons.mp h1).2
      have hko : k ∉ output := h2 k (by simp)
      obtain ⟨ihN, ihS, ihL, ihD, ihC, ihP⟩ := ih hnodup'
        (fun k' hk' => h2 k' (by simp [hk'])) h3 h4
      simp only [orderPass, if_neg hcond]
      refine ⟨?_, ?_, ?_, ?_, ihC, ihP⟩
      · exact List.nodup_cons.mpr ⟨fun hc => hknr (ihS k hc), ihN⟩
      · intro x hx
        rcases List.mem_cons.mp hx with h | h
        · simp [h]
        · simp [List.mem_cons.mpr (Or.inr (ihS x h))]
      · intro x hx
        rcases ihL x hx with h | h
        · exact Or.inl h
        · exact Or.inr (by simp [List.mem_cons.mpr (Or.inr h)])
      · intro k' hk' hc
        rcases List.mem_cons.mp hk' with h | h
        · subst h
          rcases ihL k' hc with h | h
          · exact hko h
          · exact hknr h
        · exact ihD k' h hc

/-- The orderer loop preserves the invariant; any output it completes is
dependency-ordered. -/
theorem orderLoop_ordered (deps : String → List String) (fuel : Nat) :
    ∀ keys output out, keys.Nodup → (∀ k ∈ keys, k ∉ output) →
    (∀ a ∈ output, ∀ d ∈ deps a, d ∈ output) →
    List.Pairwise (fun a b => b ∉ deps a) output →
    orderLoop deps fuel keys output = some out →
    List.Pairwise (fun a b => b ∉ deps a) out := by
  induction fuel with
  | zero => intro keys output out _ _ _ _ h; simp [orderLoop] at h
  | succ n ih =>
      intro keys output out h1 h2 h3 h4 h
      rw [orderLoop] at h
      by_cases hk : keys.isEmpty
      · rw [if_pos hk] at h
        cases h
        exact h4
      · rw [if_neg hk] at h
        obtain ⟨pN, pS, pL, pD, pC, pP⟩ := orderPass_inv deps output keys h1 h2 h3 h4
        exact ih _ _ _ pN pD pC pP h
theorem step_fail (c : ToolCall) (st : AgentState)
    (hfail : ((execTool c st).1).isMutationSuccess = false) :
    (execTool c st).2.operationHistory = st.operationHistory := by
  by_cases habt : st.aborted = true
  · rw [execTool_aborted c st habt]
  · have hab : st.aborted = false := by simpa using habt
    cases c with
    | listSchemas args => simp [execTool, execListSchemas, hab]
    | listTables args =>
        simp only [execTool, execListTables, hab, Bool.false_eq_true, if_false]
        split <;> rfl
    | getTableDetails args =>
        rcases hcase : jsGet st.schemaState args.tableId with _ | t <;>
          simp [execTool, execGetTableDetails, hab, hcase]
    | createTable args =>
        rcases hcase : jsGet st.schemaState args.tableId with _ | old <;>
          simp [execTool, execCreateTable, hab, hcase,
            ToolResult.isMutationSuccess] at hfail
    | dropTable args =>
        rcases hcase : jsGet st.schemaState args.tableId with _ | t
        · simp [execTool, execDropTable, hab, hcase]
        · simp [execTool, execDropTable, hab, hcase,
            ToolResult.isMutationSuccess] at hfail
    | renameTable args =>
        rcases hcase : jsGet st.schemaState args.fromTableId with _ | src
        · simp [execTool, execRenameTable, hab, hcase]
        · simp [execTool, execRenameTable, hab, hcase,
            ToolResult.isMutationSuccess] at hfail
    | addColumn args =>
        rcases hcase : jsGet st.schemaState args.tableId with _ | t
        · simp [execTool, execAddColumn, hab, hcase]
        · by_cases hdup : (t.columns.any
              (fun col => col.title = (normaliseColumn args.column).title)) = true
          · simp [execTool, execAddColumn, hab, hcase, hdup]
          · simp [execTool, execAddColumn, hab, hcase, hdup,
              ToolResult.isMutationSuccess, recordOperation] at hfail
    | dropColumn args =>
        rcases hcase : jsGet st.schemaState args.tableId with _ | t
        · simp [execTool, execDropColumn, hab, hcase]
        · simp only [execTool, execDropColumn, hab, Bool.false_eq_true,
            if_false, hcase] at hfail ⊢
          split
          · rfl
          · next hcond =>
              rw [if_neg hcond] at hfail
              simp [ToolResult.isMutationSuccess] at hfail
    | alterColumn args =>
        rcases hcase : jsGet st.schemaState args.tableId with _ | t
        · simp [execTool, execAlterColumn, hab, hcase]
        · rcases hidx : t.columns.findIdx?
              (fun col => col.title = args.columnName) with _ | i
          · simp [execTool, execAlterColumn, hab, hcase, hidx]
          · simp [execTool, execAlterColumn, hab, hcase, hidx,
              ToolResult.isMutationSuccess, recordOperation] at hfail

/-- One `operationsApplied` entry of the legacy modify-schema route. -/
structure LegacyApplied where
  action : String
  tableId : String
  detail : String
  status : String
  deriving Repr, DecidableEq

/-- The discriminated `operations` union of the legacy `modifySchema` tool. -/
inductive LegacyOp where
  | create_table (tableId : String) (columns : List ColumnInput)
      (isView : Option Bool)
  | drop_table (tableId : String)
  | rename_table (fromTableId toTableId : String)
  | add_column (tableId : String) (column : ColumnInput)
  | drop_column (tableId columnName : String)
  | alter_column (tableId columnName : String) (patch : ColumnPatch)
  deriving Repr, DecidableEq

/-- The running state of `applySchemaOperations`. -/
structure LegacyState where
  schemaState : TableState
  ok : Bool
  operationsApplied : List LegacyApplied
  deriving Repr, DecidableEq

/-- One iteration of the `for (const operation of input.operations)` switch
in the legacy route (`route.ts`). -/
def applyLegacyOp (st : LegacyState) (op : LegacyOp) : LegacyState :=
  match op with
  | .create_table tableId cols isView =>
      let parsed := parseTableIdentifier tableId
      let columns := cols.map normaliseColumnLegacy
      let existing := jsGet st.schemaState tableId
      let table : Table :=
        { title := tableId
          schema := parsed.schema
          is_view := isView.getD false
          columns := columns
          position :=
            match existing with
            | some e => e.position
            | none => { x := 0, y := 0 } }
      { st with
        schemaState := jsSet st.schemaState tableId table
        operationsApplied := st.operationsApplied ++
          [{ action := "create_table", tableId := tableId
             detail := "Created " ++ tableId ++ " with " ++
               toString columns.length ++ " column" ++
               (if columns.length = 1 then "" else "s") ++ "."
             status := "success" }] }
  | .drop_table tableId =>
      match jsGet st.schemaState tableId with
      | some _ =>
          { st with
            schemaState := jsDelete st.schemaState tableId
            operationsApplied := st.operationsApplied ++
              [{ action := "drop_table", tableId := tableId
                 detail := "Removed " ++ tableId ++ ".", status := "success" }] }
      | none =>
          { st with
            ok := false
            operationsApplied := st.operationsApplied ++
              [{ action := "drop_table", tableId := tableId
                 detail := "Table " ++ tableId ++ " not found."
                 status := "error" }] }
  | .rename_table fromTableId toTableId =>
      match jsGet st.schemaState fromTableId with
      | none =>
          { st with
            ok := false
            operationsApplied := st.operationsApplied ++
              [{ action := "rename_table", tableId := fromTableId
                 detail := "Table " ++ fromTableId ++ " not found."
                 status := "error" }] }
      | some source =>
          let parsed := parseTableIdentifier toTableId
          let updated : Table :=
            { source with title := toTableId, schema := parsed.schema }
          { st with
            schemaState :=
              jsSet (jsDelete st.schemaState fromTableId) toTableId updated
            operationsApplied := st.operationsApplied ++
              [{ action := "rename_table", tableId := toTableId
                 detail := "Renamed " ++ fromTableId ++ " to " ++ toTableId ++ "."
                 status := "success" }] }
  | .add_column tableId col =>
      match jsGet st.schemaState tableId with
      | none =>
          { st with
            ok := false
            operationsApplied := st.operationsApplied ++
              [{ action := "add_column", tableId := tableId
                 detail := "Table " ++ tableId ++ " not found."
                 status := "error" }] }
      | some table =>
          let column := normaliseColumnLegacy col
          { st with
            schemaState := jsSet st.schemaState tableId
              { table with columns := table.columns ++ [column] }
            operationsApplied := st.operationsApplied ++
              [{ action := "add_column", tableId := tableId
                 detail := "Added column " ++ column.title ++ "."
                 status := "success" }] }
  | .drop_column tableId columnName =>
      match jsGet st.schemaState tableId with
      | none =>
          { st with
            ok := false
            operationsApplied := st.operationsApplied ++
              [{ action := "drop_column", tableId := tableId
                 detail := "Column " ++ columnName ++ " not found."
                 status := "error" }] }
      | some table =>
          let nextColumns := table.columns.filter
            (fun c => c.title ≠ columnName)
          if nextColumns.length = table.columns.length then
            { st with
              ok := false
              operationsApplied := st.operationsApplied ++
                [{ action := "drop_column", tableId := tableId
                   detail := "Column " ++ columnName ++ " not found."
                   status := "error" }] }
          else
            { st with
              schemaState := jsSet st.schemaState tableId
                { table with columns := nextColumns }
              operationsApplied := st.operationsApplied ++
                [{ action := "drop_column", tableId := tableId
                   detail := "Removed column " ++ columnName ++ "."
                   status := "success" }] }
  | .alter_column tableId columnName patch =>
      match jsGet st.schemaState tableId with
      | none =>
          { st with
            ok := false
            operationsApplied := st.operationsApplied ++
              [{ action := "alter_column", tableId := tableId
                 detail := "Table " ++ tableId ++ " not found."
                 status := "error" }] }
      | some table =>
          match table.columns.findIdx? (fun c => c.title = columnName) with
          | none =>
              { st with
                ok := false
                operationsApplied := st.operationsApplied ++
                  [{ action := "alter_column", tableId := tableId
                     detail := "Column " ++ columnName ++ " not found."
                     status := "error" }] }
          | some columnIndex =>
              let originalColumn := table.columns.getD columnIndex default
              let updatedColumn := applyPatch originalColumn patch
              let updatedColumn :=
                if jsTruthyOpt patch.format && !jsTruthyOpt patch.type then
                  { updatedColumn with type := patch.format.getD updatedColumn.type }
                else updatedColumn
              let updatedColumn :=
                if jsTruthyOpt patch.type && !jsTruthyOpt patch.format then
                  { updatedColumn with format := patch.type.getD updatedColumn.format }
                else updatedColumn
              { st with
                schemaState := jsSet st.schemaState tableId
                  { table with
                    columns := table.columns.set columnIndex updatedColumn }
                operationsApplied := st.operationsApplied ++
                  [{ action := "alter_column", tableId := tableId
                     detail := "Updated column " ++ columnName ++ "."
                     status := "success" }] }

/-- `applySchemaOperations`: fold the operation list over the cloned request
schema, starting from `ok = true`. -/
def applySchemaOperations (tables : TableState) (ops : List LegacyOp) :
    LegacyState :=
  ops.foldl applyLegacyOp
    { schemaState := tables, ok := true, operationsApplied := [] }

/-- Example fixture: a `users` table as the agent `createTable` tool builds it. -/
def usersTable : Table :=
  { title := "users"
    schema := some "public"
    is_view := false
    columns :=
      [{ title := "id", type := "uuid", format := "uuid", required := true, pk := true },
       { title := "email", type := "text", format := "text", required := true }]
    position := { x := 100, y := 100 } }

/-- Example fixture: a `posts` table with a foreign key into `users`. -/
def postsTable : Table :=
  { title := "posts"
    schema := some "public"
    is_view := false
    columns :=
      [{ title := "id", type := "uuid", format := "uuid", pk := true },
       { title := "user_id", type := "uuid", format := "uuid", fk := some "users.id" }]
    position := { x := 150, y := 150 } }

/-- A fresh agent state over a given schema. -/
def mkState (tables : TableState) (aborted : Bool) : AgentState :=
  { schemaState := tables
    operationCount := 0
    totalOperations := 0
    operationHistory := []
    aborted := aborted }

/-- Example fixture: table `a` foreign-keying into `b`. -/
def tableA : Table :=
  { title := "a", schema := some "public", is_view := false
    columns := [{ title := "b_id", type := "uuid", format := "uuid",
                  fk := some "b.id" }]
    position := { x := 0, y := 0 } }

/-- Example fixture: table `b` foreign-keying into `a` (a true FK cycle with
`tableA`). -/
def tableB : Table :=
  { title := "b", schema := some "public", is_view := false
    columns := [{ title := "a_id", type := "uuid", format := "uuid",
                  fk := some "a.id" }]
    position := { x := 0, y := 0 } }

/-- A two-table schema whose FK references form a true cycle. -/
def cyclicTables : TableState := [("a", tableA), ("b", tableB)]

/-- The reserved-word set as the specification enumerates it (14 distinct
words; the source array lists `user` twice but denotes the same set). -/
def reservedSpec : List String :=
  ["user", "database", "default", "dictionary", "files", "group", "index",
   "level", "max", "min", "password", "procedure", "table", "view"]

theorem reserved_iff (s : String) :
    (reservedKeyword.contains s = true) ↔ s ∈ reservedSpec := by
  simp [reservedKeyword, reservedSpec]
  tauto

/-- The column line as the specification words it: quoted identifier iff
reserved; `serial` iff integer primary key; a `references` clause iff `fk`
is set; `default now()` for date/timestamp-family formats; then
`default uuid_generate_v4()` for required uuid non-FK columns, else
`not null` for required non-FK columns; `primary key` iff `pk`. -/
def columnSQLSpec (c : Column) : String :=
  (if c.title ∈ reservedSpec then "  \"" ++ c.title ++ "\"" else "  " ++ c.title) ++
  ((if c.format = "integer" ∧ c.pk = true then " serial" else " " ++ c.format) ++
  ((match c.fk with
    | some fk => " references " ++ fkTable fk ++ " (" ++ fkColumn fk ++ ")"
    | none => "") ++
  ((if c.format = "date" ∨ jsIncludes c.format "timestamp" = true then
      " default now()"
    else "") ++
  ((if c.required = true ∧ c.format = "uuid" ∧ c.fk = none then
      " default uuid_generate_v4()"
    else if c.required = true ∧ c.fk = none then " not null"
    else "") ++
  (if c.pk = true then " primary key" else "")))))

/-- The column list as the specification words it: every line but the last
terminated by comma+newline, the last by a newline. -/
def columnsSQLSpec : List Column → String
  | [] => ""
  | [c] => columnSQLSpec c ++ "\n"
  | c :: rest => columnSQLSpec c ++ ",\n" ++ columnsSQLSpec rest

/-! ### A spec-modelled SQL parser

`parseSchemaSQL`/`generateSchemaSQL` live in `lib/schema-sql`, which is not
part of the sources; only their callers are.  Following SS4.3/SS4.4 of the
specification they are modelled here: generation uses the SS4.3 emission
rules (the `ModalSQL` rules embedded above) in SS4.2 dependency order, and
parsing tokenizes the DDL text (whitespace-insensitively, as SS4.4 demands)
and recognizes `CREATE TABLE` statements with column lists carrying inline
`PRIMARY KEY`, `NOT NULL`, `DEFAULT` and `REFERENCES table(column)`
clauses, returning a structured `error` string instead of throwing.  The
`CREATE TYPE ... AS ENUM` form is outside the modelled fragment (the spec
gives no enum DDL grammar for the generator and the round-trip claim
excludes enum edge cases). -/

/-- Punctuation tokens recognized by the modelled tokenizer. -/
def isDelim (ch : Char) : Bool :=
  ch = '(' || ch = ')' || ch = ',' || ch = ';'

/-- Whitespace for the modelled tokenizer. -/
def isSpaceCh (ch : Char) : Bool :=
  ch = ' ' || ch = '\n' || ch = '\t' || ch = '\r'

/-- Modelled from the spec: tokenizer of the absent `parseSchemaSQL`
(`lib/schema-sql`).  Splits the text into maximal word runs and single
punctuation characters; whitespace only separates, so formatting cannot
affect parse success (SS4.4). -/
def tokenizeAux : List Char → List Char → List String
  | [], acc => if acc.isEmpty then [] else [String.mk acc.reverse]
  | ch :: rest, acc =>
      if isSpaceCh ch then
        (if acc.isEmpty then [] else [String.mk acc.reverse]) ++
          tokenizeAux rest []
      else if isDelim ch then
        (if acc.isEmpty then [] else [String.mk acc.reverse]) ++
          (String.mk [ch] :: tokenizeAux rest [])
      else tokenizeAux rest (ch :: acc)

def tokenize (s : String) : List String := tokenizeAux s.data []

/-- Strip one level of double quotes (reserved identifiers are emitted
quoted). -/
def unquote (s : String) : String :=
  match s.data with
  | '"' :: rest =>
      if rest.getLast? = some '"' then String.mk rest.dropLast else s
  | _ => s

/-- Modelled from the spec: reconstruct one column from its clause tokens
(name, type, `REFERENCES t(c)`, `DEFAULT now()`/`DEFAULT
uuid_generate_v4()`, `NOT NULL`, `PRIMARY KEY`), inverting the SS4.3
emission conventions (`serial` denotes an integer primary key; a
`uuid_generate_v4` default or a `not null` marks the column required). -/
def parseOneColumn (toks : List String) : Option (Column × List String) :=
  match toks with
  | title :: fmtTok :: rest =>
      let p1 : Option (String × String) × List String :=
        match rest with
        | "references" :: ft :: "(" :: fc :: ")" :: r => (some (ft, fc), r)
        | _ => (none, rest)
      let p2 : List String :=
        match p1.2 with
        | "default" :: "now" :: "(" :: ")" :: r => r
        | _ => p1.2
      let p3 : Bool × List String :=
        match p2 with
        | "default" :: "uuid_generate_v4" :: "(" :: ")" :: r => (true, r)
        | "not" :: "null" :: r => (true, r)
        | _ => (false, p2)
      let p4 : Bool × List String :=
        match p3.2 with
        | "primary" :: "key" :: r => (true, r)
        | _ => (false, p3.2)
      let fmt := if fmtTok = "serial" then "integer" else fmtTok
      some
        ({ title := unquote title
           type := fmt
           format := fmt
           dflt := none
           required := p3.1
           pk := p4.1
           fk := p1.1.map (fun p => p.1 ++ "." ++ p.2)
           enumValues := none
           enumTypeName := none
           comment := none }, p4.2)
  | _ => none

/-- Modelled from the spec: parse the comma-separated column list up to the
closing `);`. -/
def parseColumnsTok : Nat → List String → Option (List Column × List String)
  | 0, _ => none
  | _ + 1, ")" :: ";" :: rest => some ([], rest)
  | fuel + 1, toks =>
      match parseOneColumn toks with
      | none => none
      | some (c, rest) =>
          match rest with
          | "," :: rest' =>
              match parseColumnsTok fuel rest' with
              | some (cs, rest'') => some (c :: cs, rest'')
              | none => none
          | ")" :: ";" :: rest' => some ([c], rest')
          | _ => none

/-- Modelled from the spec: parse a stream of `CREATE TABLE` statements.
The parsed table is keyed by the written identifier, its `title`/`schema`
derived from that identifier with the `public` default of the data model;
`position` is canvas-only and not encoded in SQL. -/
def parseTablesTok : Nat → List String → Option TableState
  | 0, _ => none
  | _ + 1, [] => some []
  | fuel + 1, "create" :: "table" :: id :: "(" :: rest =>
      match parseColumnsTok (rest.length + 1) rest with
      | none => none
      | some (cols, rest') =>
          let t : Table :=
            { title := (parseTableIdentifier id).name
              schema := some (jsOrStr (parseTableIdentifier id).schema "public")
              is_view := false
              columns := cols
              position := { x := 0, y := 0 } }
          match parseTablesTok fuel rest' with
          | none => none
          | some ts => some ((id, t) :: ts)
  | _, _ => none

/-- The structured result of `parseSchemaSQL` (SS4.4): parsed tables, parsed
enum types, and a non-empty `error` string instead of a thrown exception on
unrecognized input. -/
structure ParseResult where
  tables : TableState
  enumTypes : List (String × List String)
  error : Option String
  deriving Repr, DecidableEq

/-- Modelled from the spec: `parseSchemaSQL` of the absent
`lib/schema-lib` module, on the `CREATE TABLE` fragment. -/
def parseSchemaSQL (text : String) : ParseResult :=
  let toks := tokenize text
  match parseTablesTok (toks.length + 1) toks with
  | some ts => { tables := ts, enumTypes := [], error := none }
  | none =>
      { tables := [], enumTypes := []
        error := some "Unrecognized SQL statement" }

/-- Modelled from the spec: `generateSchemaSQL` of the absent
`lib/schema-sql` module — SS4.3 emission (the `ModalSQL` rules) in SS4.2
dependency order; the source's unguarded ordering loop is fuelled, `none`
standing for non-termination.  Enum DDL emission is left out (no grammar
is specified for it and the round-trip claim excludes enum edge cases). -/
def generateSchemaSQL (fuel : Nat) (tables : TableState) : Option String :=
  generateSQL fuel tables

/-- A table with its canvas position zeroed out (generation does not encode
`position`; comparisons ignore it). -/
def stripPos (t : Table) : Table := { t with position := { x := 0, y := 0 } }

/-! ### Well-formedness: the schema fragment on which SS4.3 emission is
lossless.  Each condition is forced by a concrete information loss of the
generator: comments, explicit defaults and enum metadata are never
emitted; a `required` FK column emits no `not null`; a `type` differing
from `format` is not representable; a literal `serial` format aliases the
integer-primary-key encoding; identifiers containing whitespace, quotes or
punctuation do not survive tokenization; views are skipped entirely. -/

/-- Characters that may appear in identifiers and type names of a
well-formed schema: word characters other than the double quote. -/
def wordChar (ch : Char) : Bool :=
  !isSpaceCh ch && !isDelim ch && ch ≠ '"'

/-- Nonempty strings of identifier characters. -/
def wordLike (s : String) : Prop :=
  s.data ≠ [] ∧ ∀ ch ∈ s.data, wordChar ch = true

instance (s : String) : Decidable (wordLike s) := by
  unfold wordLike; infer_instance

/-- A well-formed FK string: `table.column` with word-like parts. -/
def fkWF (f : String) : Prop :=
  wordLike (fkTable f) ∧ wordLike (fkColumn f) ∧
  f = fkTable f ++ "." ++ fkColumn f

instance (f : String) : Decidable (fkWF f) := by
  unfold fkWF; infer_instance

/-- Columns the SS4.3 emission represents without loss. -/
def wfColumn (c : Column) : Prop :=
  wordLike c.title ∧ wordLike c.format ∧ c.format ≠ "serial" ∧
  c.type = c.format ∧ c.dflt = none ∧ c.enumValues = none ∧
  c.enumTypeName = none ∧ c.comment = none ∧
  (∀ f, c.fk = some f → fkWF f) ∧
  (c.required = true → c.fk = none)

instance (c : Column) : Decidable (wfColumn c) := by
  unfold wfColumn; infer_instance

/-- A table entry the emission represents without loss. -/
def wfTable (k : String) (t : Table) : Prop :=
  wordLike k ∧ t.is_view = false ∧
  t.title = (parseTableIdentifier k).name ∧
  t.schema = some (jsOrStr (parseTableIdentifier k).schema "public") ∧
  ∀ c ∈ t.columns, wfColumn c

instance (k : String) (t : Table) : Decidable (wfTable k t) := by
  unfold wfTable; infer_instance

/-- A table state the emission represents without loss. -/
def wfState (tables : TableState) : Prop :=
  (jsKeys tables).Nodup ∧ ∀ e ∈ tables, wfTable e.1 e.2

instance (tables : TableState) : Decidable (wfState tables) := by
  unfold wfState; infer_instance

/-! Tokenizer walking lemmas. -/

theorem string_mk_data (s : String) : String.mk s.data = s := by
  cases s; rfl

/-- A character list whose head (if any) separates tokens. -/
def boundaryB (l : List Char) : Bool :=
  match l with
  | [] => true
  | ch :: _ => isSpaceCh ch || isDelim ch

theorem boundaryB_append {a b : List Char} (ha : boundaryB a = true)
    (hb : boundaryB b = true) : boundaryB (a ++ b) = true := by
  cases a with
  | nil => simpa using hb
  | cons ch t => simpa [boundaryB] using ha

theorem tokenizeAux_words (w : List Char)
    (hw : ∀ ch ∈ w, isSpaceCh ch = false ∧ isDelim ch = false) :
    ∀ rest acc, tokenizeAux (w ++ rest) acc = tokenizeAux rest (w.reverse ++ acc) := by
  induction w with
  | nil => intro rest acc; simp
  | cons ch t ih =>
      intro rest acc
      have hch := hw ch (by simp)
      have ht : ∀ ch ∈ t, isSpaceCh ch = false ∧ isDelim ch = false :=
        fun c hc => hw c (by simp [hc])
      simp only [List.cons_append, tokenizeAux, hch.1, hch.2,
        Bool.false_eq_true, if_false, List.reverse_cons, List.append_assoc,
        List.singleton_append]
      exact ih ht rest (ch :: acc)

theorem tokenizeAux_flush (rest acc : List Char) (hacc : acc ≠ [])
    (hb : boundaryB rest = true) :
    tokenizeAux rest acc = String.mk acc.reverse :: tokenizeAux rest [] := by
  cases rest with
  | nil => simp [tokenizeAux, hacc]
  | cons ch t =>
      simp only [boundaryB, Bool.or_eq_true] at hb
      rcases hb with h | h
      · simp [tokenizeAux, h, hacc, List.isEmpty_eq_true]
      · by_cases hs : isSpaceCh ch = true <;>
          simp [tokenizeAux, h, hs, hacc, List.isEmpty_eq_true]

/-- A maximal word run followed by a boundary yields one token. -/
theorem tokenizeAux_token (w : List Char) (rest : List Char)
    (hne : w ≠ [])
    (hw : ∀ ch ∈ w, isSpaceCh ch = false ∧ isDelim ch = false)
    (hb : boundaryB rest = true) :
    tokenizeAux (w ++ rest) [] = String.mk w :: tokenizeAux rest [] := by
  rw [tokenizeAux_words w hw rest []]
  rw [List.append_nil]
  rw [tokenizeAux_flush rest w.reverse (by simpa using hne) hb]
  rw [List.reverse_reverse]

theorem tokenizeAux_space (ch : Char) (rest : List Char)
    (h : isSpaceCh ch = true) :
    tokenizeAux (ch :: rest) [] = tokenizeAux rest [] := by
  simp [tokenizeAux, h]

theorem tokenizeAux_delim (ch : Char) (rest : List Char)
    (h : isDelim ch = true) (h2 : isSpaceCh ch = false) :
    tokenizeAux (ch :: rest) [] = String.mk [ch] :: tokenizeAux rest [] := by
  simp [tokenizeAux, h, h2]

/-- Word characters never start or end tokens. -/
theorem wordChar_not_space {ch : Char} (h : wordChar ch = true) :
    isSpaceCh ch = false ∧ isDelim ch = false := by
  simp only [wordChar, Bool.and_eq_true, Bool.not_eq_true'] at h
  exact ⟨h.1.1, h.1.2⟩

/-! Token streams of the generated DDL. -/

/-- The identifier token a column title prints as (quoted when reserved). -/
def titleTok (c : Column) : String :=
  if reservedKeyword.contains c.title then "\"" ++ c.title ++ "\"" else c.title

/-- The type token a column prints as (`serial` encodes integer+pk). -/
def fmtTok (c : Column) : String :=
  if c.format = "integer" ∧ c.pk = true then "serial" else c.format

/-- The token sequence of one generated column line. -/
def columnTokens (c : Column) : List String :=
  titleTok c :: fmtTok c ::
  ((match c.fk with
    | some f => ["references", fkTable f, "(", fkColumn f, ")"]
    | none => []) ++
   ((if c.format = "date" ∨ jsIncludes c.format "timestamp" = true then
      ["default", "now", "(", ")"] else []) ++
   ((if c.required = true ∧ c.format = "uuid" ∧ c.fk = none then
      ["default", "uuid_generate_v4", "(", ")"]
    else if c.required = true ∧ c.fk = none then ["not", "null"] else []) ++
   (if c.pk = true then ["primary", "key"] else []))))

theorem unquote_plain (s : String) (h : ∀ ch ∈ s.data, wordChar ch = true) :
    unquote s = s := by
  unfold unquote
  cases hd : s.data with
  | nil => rfl
  | cons ch t =>
      have hch : wordChar ch = true := h ch (by rw [hd]; simp)
      have hq : ¬(ch = '"') := by
        intro hc
        rw [hc] at hch
        simp [wordChar] at hch
      simp [hq]

theorem unquote_quoted (t : String) : unquote ("\"" ++ t ++ "\"") = t := by
  have hd : ("\"" ++ t ++ "\"").data = '"' :: (t.data ++ ['"']) := by
    simp only [String.data_append, List.append_assoc]
    rfl
  unfold unquote
  rw [hd]
  simp [List.getLast?_concat, List.dropLast_concat, string_mk_data]

theorem boundaryB_space (l : List Char) : boundaryB (' ' :: l) = true := rfl

theorem boundaryB_lparen (l : List Char) : boundaryB ('(' :: l) = true := rfl

theorem boundaryB_rparen (l : List Char) : boundaryB (')' :: l) = true := rfl

theorem tok_quoted (t : String) (ht : wordLike t) (rest : List Char)
    (hb : boundaryB rest = true) :
    tokenizeAux (("  \"" ++ t ++ "\"").data ++ rest) [] =
      ("\"" ++ t ++ "\"") :: tokenizeAux rest [] := by
  obtain ⟨hne, hw⟩ := ht
  have h1 : ("  \"" ++ t ++ "\"").data ++ rest =
      ' ' :: ' ' :: (('"' :: t.data ++ ['"']) ++ rest) := by
    simp only [String.data_append, List.append_assoc]
    rfl
  rw [h1, tokenizeAux_space _ _ (by decide), tokenizeAux_space _ _ (by decide),
    tokenizeAux_token _ _ (by simp) ?_ hb]
  · have hmk : String.mk ('"' :: t.data ++ ['"']) = "\"" ++ t ++ "\"" := by
      have : ("\"" ++ t ++ "\"").data = '"' :: t.data ++ ['"'] := by
        simp only [String.data_append, List.append_assoc]
        rfl
      rw [← this, string_mk_data]
    rw [hmk]
  · intro ch hch
    rcases List.mem_cons.mp hch with h | h
    · rw [h]; exact ⟨by decide, by decide⟩
    · rcases List.mem_append.mp h with h | h
      · exact wordChar_not_space (hw ch h)
      · have : ch = '"' := by simpa using h
        rw [this]; exact ⟨by decide, by decide⟩

theorem tok_plain (t : String) (ht : wordLike t) (rest : List Char)
    (hb : boundaryB rest = true) :
    tokenizeAux (("  " ++ t).data ++ rest) [] = t :: tokenizeAux rest [] := by
  obtain ⟨hne, hw⟩ := ht
  have h1 : ("  " ++ t).data ++ rest = ' ' :: ' ' :: (t.data ++ rest) := by
    simp only [String.data_append]
    rfl
  rw [h1, tokenizeAux_space _ _ (by decide), tokenizeAux_space _ _ (by decide),
    tokenizeAux_token _ _ (by simpa using hne)
      (fun ch hch => wordChar_not_space (hw ch hch)) hb, string_mk_data]

theorem tok_sp_word (w : String) (hne : w.data ≠ [])
    (hw : ∀ ch ∈ w.data, isSpaceCh ch = false ∧ isDelim ch = false)
    (rest : List Char) (hb : boundaryB rest = true) :
    tokenizeAux ((" " ++ w).data ++ rest) [] = w :: tokenizeAux rest [] := by
  have h1 : (" " ++ w).data ++ rest = ' ' :: (w.data ++ rest) := by
    simp only [String.data_append]
    rfl
  rw [h1, tokenizeAux_space _ _ (by decide),
    tokenizeAux_token _ _ hne hw hb, string_mk_data]

theorem tok_refs (ft fc : String) (hft : wordLike ft) (hfc : wordLike fc)
    (rest : List Char) :
    tokenizeAux ((" references " ++ ft ++ " (" ++ fc ++ ")").data ++ rest) [] =
      "references" :: ft :: "(" :: fc :: ")" :: tokenizeAux rest [] := by
  obtain ⟨hft1, hft2⟩ := hft
  obtain ⟨hfc1, hfc2⟩ := hfc
  have h1 : (" references " ++ ft ++ " (" ++ fc ++ ")").data ++ rest =
      ' ' :: (("references" : String).data ++
        (' ' :: (ft.data ++ (' ' :: '(' :: (fc.data ++ (')' :: rest)))))) := by
    simp only [String.data_append, List.append_assoc]
    rfl
  rw [h1, tokenizeAux_space _ _ (by decide),
    tokenizeAux_token _ _ (by decide) (by decide) (boundaryB_space _),
    tokenizeAux_space _ _ (by decide),
    tokenizeAux_token _ _ hft1
      (fun ch hch => wordChar_not_space (hft2 ch hch)) (boundaryB_space _),
    tokenizeAux_space _ _ (by decide),
    tokenizeAux_delim _ _ (by decide) (by decide),
    tokenizeAux_token _ _ hfc1
      (fun ch hch => wordChar_not_space (hfc2 ch hch)) (boundaryB_rparen _),
    tokenizeAux_delim _ _ (by decide) (by decide),
    string_mk_data, string_mk_data, string_mk_data]

theorem tok_now (rest : List Char) :
    tokenizeAux ((" default now()" : String).data ++ rest) [] =
      "default" :: "now" :: "(" :: ")" :: tokenizeAux rest [] := by
  have h1 : (" default now()" : String).data ++ rest =
      ' ' :: (("default" : String).data ++
        (' ' :: (("now" : String).data ++ ('(' :: ')' :: rest)))) := by
    rfl
  rw [h1, tokenizeAux_space _ _ (by decide),
    tokenizeAux_token _ _ (by decide) (by decide) (boundaryB_space _),
    tokenizeAux_space _ _ (by decide),
    tokenizeAux_token _ _ (by decide) (by decide) (boundaryB_lparen _),
    tokenizeAux_delim _ _ (by decide) (by decide),
    tokenizeAux_delim _ _ (by decide) (by decide)]

theorem tok_uuid (rest : List Char) :
    tokenizeAux ((" default uuid_generate_v4()" : String).data ++ rest) [] =
      "default" :: "uuid_generate_v4" :: "(" :: ")" :: tokenizeAux rest [] := by
  have h1 : (" default uuid_generate_v4()" : String).data ++ rest =
      ' ' :: (("default" : String).data ++
        (' ' :: (("uuid_generate_v4" : String).data ++ ('(' :: ')' :: rest)))) := by
    rfl
  rw [h1, tokenizeAux_space _ _ (by decide),
    tokenizeAux_token _ _ (by decide) (by decide) (boundaryB_space _),
    tokenizeAux_space _ _ (by decide),
    tokenizeAux_token _ _ (by decide) (by decide) (boundaryB_lparen _),
    tokenizeAux_delim _ _ (by decide) (by decide),
    tokenizeAux_delim _ _ (by decide) (by decide)]

theorem tok_notnull (rest : List Char) (hb : boundaryB rest = true) :
    tokenizeAux ((" not null" : String).data ++ rest) [] =
      "not" :: "null" :: tokenizeAux rest [] := by
  have h1 : (" not null" : String).data ++ rest =
      ' ' :: (("not" : String).data ++ (' ' :: (("null" : String).data ++ rest))) := by
    rfl
  rw [h1, tokenizeAux_space _ _ (by decide),
    tokenizeAux_token _ _ (by decide) (by decide) (boundaryB_space _),
    tokenizeAux_space _ _ (by decide),
    tokenizeAux_token _ _ (by decide) (by decide) hb]

theorem tok_pk (rest : List Char) (hb : boundaryB rest = true) :
    tokenizeAux ((" primary key" : String).data ++ rest) [] =
      "primary" :: "key" :: tokenizeAux rest [] := by
  have h1 : (" primary key" : String).data ++ rest =
      ' ' :: (("primary" : String).data ++
        (' ' :: (("key" : String).data ++ rest))) := by
    rfl
  rw [h1, tokenizeAux_space _ _ (by decide),
    tokenizeAux_token _ _ (by decide) (by decide) (boundaryB_space _),
    tokenizeAux_space _ _ (by decide),
    tokenizeAux_token _ _ (by decide) (by decide) hb]

set_option maxRecDepth 8000 in
set_option maxHeartbeats 12000000 in
theorem parseOneColumn_tokens (c : Column) (hc : wfColumn c) (rh : String)
    (rtail : List String) (hr : rh = "," ∨ rh = ")") :
    parseOneColumn (columnTokens c ++ rh :: rtail) = some (c, rh :: rtail) := by
  obtain ⟨title, ty, fmt, dflt, req, pk, fk, ev, etn, cm⟩ := c
  obtain ⟨ht, hfw, hns, hty, hd, he1, he2, hcm, hfk, hreq⟩ := hc
  dsimp only at ht hfw hns hty hd he1 he2 hcm hfk hreq
  obtain ⟨ht1, ht2⟩ := ht
  subst hty hd he1 he2 hcm
  rcases hr with hr | hr
  · subst hr
    rcases fk with _ | f
    · by_cases hres : reservedKeyword.contains title = true <;>
      by_cases hnow : ty = "date" ∨ jsIncludes ty "timestamp" = true <;>
      by_cases hrq : req = true <;>
      by_cases huu : ty = "uuid" <;>
      by_cases hpk : pk = true <;>
      by_cases hser : ty = "integer" ∧ pk = true <;>
      simp_all [columnTokens, titleTok, fmtTok, parseOneColumn,
        unquote_quoted, unquote_plain]
    · obtain ⟨hf1, hf2, hf3⟩ := hfk f rfl
      have hrqf : req = false := by
        cases req
        · rfl
        · exact absurd (hreq rfl) (by simp)
      clear hfk hreq
      generalize hA : fkTable f = a at hf1 hf3
      generalize hB : fkColumn f = b at hf2 hf3
      subst hf3
      by_cases hres : reservedKeyword.contains title = true <;>
      by_cases hnow : ty = "date" ∨ jsIncludes ty "timestamp" = true <;>
      by_cases hpk : pk = true <;>
      by_cases hser : ty = "integer" ∧ pk = true <;>
      simp_all [columnTokens, titleTok, fmtTok, parseOneColumn,
        unquote_quoted, unquote_plain]
  · subst hr
    rcases fk with _ | f
    · by_cases hres : reservedKeyword.contains title = true <;>
      by_cases hnow : ty = "date" ∨ jsIncludes ty "timestamp" = true <;>
      by_cases hrq : req = true <;>
      by_cases huu : ty = "uuid" <;>
      by_cases hpk : pk = true <;>
      by_cases hser : ty = "integer" ∧ pk = true <;>
      simp_all [columnTokens, titleTok, fmtTok, parseOneColumn,
        unquote_quoted, unquote_plain]
    · obtain ⟨hf1, hf2, hf3⟩ := hfk f rfl
      have hrqf : req = false := by
        cases req
        · rfl
        · exact absurd (hreq rfl) (by simp)
      clear hfk hreq
      generalize hA : fkTable f = a at hf1 hf3
      generalize hB : fkColumn f = b at hf2 hf3
      subst hf3
      by_cases hres : reservedKeyword.contains title = true <;>
      by_cases hnow : ty = "date" ∨ jsIncludes ty "timestamp" = true <;>
      by_cases hpk : pk = true <;>
      by_cases hser : ty = "integer" ∧ pk = true <;>
      simp_all [columnTokens, titleTok, fmtTok, parseOneColumn,
        unquote_quoted, unquote_plain]

theorem bdy_L5 (pk : Bool) (R : List Char) (hb : boundaryB R = true) :
    boundaryB (((if pk = true then " primary key" else "") : String).data ++ R) = true := by
  by_cases hpk : pk = true
  · rw [if_pos hpk]; rfl
  · rw [if_neg hpk]; exact hb

theorem tok_L5 (pk : Bool) (R : List Char) (hb : boundaryB R = true) :
    tokenizeAux (((if pk = true then " primary key" else "") : String).data ++ R) [] =
      (if pk = true then ["primary", "key"] else []) ++ tokenizeAux R [] := by
  by_cases hpk : pk = true
  · rw [if_pos hpk, if_pos hpk]; exact tok_pk R hb
  · rw [if_neg hpk, if_neg hpk]; rfl

theorem bdy_L4 (req : Bool) (ty : String) (fkv : Option String) (R : List Char)
    (hb : boundaryB R = true) :
    boundaryB (((if req = true ∧ ty = "uuid" ∧ fkv = none then " default uuid_generate_v4()"
      else if req = true ∧ fkv = none then " not null" else "") : String).data ++ R) = true := by
  by_cases c1 : req = true ∧ ty = "uuid" ∧ fkv = none
  · rw [if_pos c1]; rfl
  · rw [if_neg c1]
    by_cases c2 : req = true ∧ fkv = none
    · rw [if_pos c2]; rfl
    · rw [if_neg c2]; exact hb

theorem tok_L4 (req : Bool) (ty : String) (fkv : Option String) (R : List Char)
    (hb : boundaryB R = true) :
    tokenizeAux (((if req = true ∧ ty = "uuid" ∧ fkv = none then " default uuid_generate_v4()"
      else if req = true ∧ fkv = none then " not null" else "") : String).data ++ R) [] =
      (if req = true ∧ ty = "uuid" ∧ fkv = none then ["default", "uuid_generate_v4", "(", ")"]
        else if req = true ∧ fkv = none then ["not", "null"] else []) ++ tokenizeAux R [] := by
  by_cases c1 : req = true ∧ ty = "uuid" ∧ fkv = none
  · rw [if_pos c1, if_pos c1]; exact tok_uuid R
  · rw [if_neg c1, if_neg c1]
    by_cases c2 : req = true ∧ fkv = none
    · rw [if_pos c2, if_pos c2]; exact tok_notnull R hb
    · rw [if_neg c2, if_neg c2]; rfl

theorem bdy_L3 (ty : String) (R : List Char) (hb : boundaryB R = true) :
    boundaryB (((if ty = "date" ∨ jsIncludes ty "timestamp" = true then " default now()"
      else "") : String).data ++ R) = true := by
  by_cases c : ty = "date" ∨ jsIncludes ty "timestamp" = true
  · rw [if_pos c]; rfl
  · rw [if_neg c]; exact hb

theorem tok_L3 (ty : String) (R : List Char) :
    tokenizeAux (((if ty = "date" ∨ jsIncludes ty "timestamp" = true then " default now()"
      else "") : String).data ++ R) [] =
      (if ty = "date" ∨ jsIncludes ty "timestamp" = true then ["default", "now", "(", ")"]
        else []) ++ tokenizeAux R [] := by
  by_cases c : ty = "date" ∨ jsIncludes ty "timestamp" = true
  · rw [if_pos c, if_pos c]; exact tok_now R
  · rw [if_neg c, if_neg c]; rfl

theorem bdy_L2 (fkv : Option String) (R : List Char) (hb : boundaryB R = true) :
    boundaryB ((match fkv with
      | some fk => " references " ++ fkTable fk ++ " (" ++ fkColumn fk ++ ")"
      | none => "").data ++ R) = true := by
  rcases fkv with _ | f
  · exact hb
  · show boundaryB ((" references " ++ fkTable f ++ " (" ++ fkColumn f ++ ")").data ++ R) = true
    have h1 : (" references " ++ fkTable f ++ " (" ++ fkColumn f ++ ")").data ++ R =
        ' ' :: ((("references" : String).data ++ [' ']) ++ ((fkTable f).data ++
          ((" (" : String).data ++ ((fkColumn f).data ++ ((")" : String).data ++ R))))) := by
      simp only [String.data_append, List.append_assoc]
      rfl
    rw [h1]
    rfl

theorem tok_L2 (fkv : Option String) (hwf : ∀ f, fkv = some f → fkWF f) (R : List Char) :
    tokenizeAux ((match fkv with
      | some fk => " references " ++ fkTable fk ++ " (" ++ fkColumn fk ++ ")"
      | none => "").data ++ R) [] =
      (match fkv with
        | some f => ["references", fkTable f, "(", fkColumn f, ")"]
        | none => []) ++ tokenizeAux R [] := by
  rcases fkv with _ | f
  · rfl
  · obtain ⟨hw1, hw2, _⟩ := hwf f rfl
    exact tok_refs (fkTable f) (fkColumn f) hw1 hw2 R

theorem bdy_L1 (ty : String) (pk : Bool) (R : List Char) :
    boundaryB (((if ty = "integer" ∧ pk = true then " serial" else " " ++ ty) : String).data
      ++ R) = true := by
  by_cases c : ty = "integer" ∧ pk = true
  · rw [if_pos c]; rfl
  · rw [if_neg c]
    have h1 : (" " ++ ty).data ++ R = ' ' :: (ty.data ++ R) := by
      simp only [String.data_append]
      rfl
    rw [h1]
    rfl

theorem tok_L1 (ty : String) (pk : Bool) (hty : wordLike ty) (R : List Char)
    (hb : boundaryB R = true) :
    tokenizeAux (((if ty = "integer" ∧ pk = true then " serial" else " " ++ ty) : String).data
      ++ R) [] =
      (if ty = "integer" ∧ pk = true then "serial" else ty) :: tokenizeAux R [] := by
  by_cases c : ty = "integer" ∧ pk = true
  · rw [if_pos c, if_pos c]
    exact tok_sp_word "serial" (by decide) (by decide) R hb
  · rw [if_neg c, if_neg c]
    exact tok_sp_word ty hty.1 (fun ch hch => wordChar_not_space (hty.2 ch hch)) R hb

theorem tok_L0 (title : String) (ht : wordLike title) (R : List Char)
    (hb : boundaryB R = true) :
    tokenizeAux (((if title ∈ reservedSpec then "  \"" ++ title ++ "\""
      else "  " ++ title) : String).data ++ R) [] =
      (if reservedKeyword.contains title = true then "\"" ++ title ++ "\"" else title) ::
        tokenizeAux R [] := by
  by_cases hres : reservedKeyword.contains title = true
  · rw [if_pos ((reserved_iff title).mp hres), if_pos hres]
    exact tok_quoted title ht R hb
  · rw [if_neg (fun hm => hres ((reserved_iff title).mpr hm)), if_neg hres]
    exact tok_plain title ht R hb

/-- Tokenizing one generated column line yields exactly its token sequence. -/
theorem tokenize_column (c : Column) (hc : wfColumn c) (rest : List Char)
    (hb : boundaryB rest = true) :
    tokenizeAux ((columnSQLSpec c).data ++ rest) [] =
      columnTokens c ++ tokenizeAux rest [] := by
  obtain ⟨title, ty, fmt, dflt, req, pk, fk, ev, etn, cm⟩ := c
  obtain ⟨ht, hfw, hns, hty, hd, he1, he2, hcm, hfk, hreq⟩ := hc
  dsimp only at ht hfw hns hty hd he1 he2 hcm hfk hreq
  subst hty hd he1 he2 hcm
  have hb5 : boundaryB
      (((if pk = true then " primary key" else "") : String).data ++ rest) = true :=
    bdy_L5 pk rest hb
  have hb45 : boundaryB
      (((if req = true ∧ ty = "uuid" ∧ fk = none then " default uuid_generate_v4()"
        else if req = true ∧ fk = none then " not null" else "") : String).data ++
        (((if pk = true then " primary key" else "") : String).data ++ rest)) = true :=
    bdy_L4 req ty fk _ hb5
  have hb345 : boundaryB
      (((if ty = "date" ∨ jsIncludes ty "timestamp" = true then " default now()"
        else "") : String).data ++
        ((((if req = true ∧ ty = "uuid" ∧ fk = none then " default uuid_generate_v4()"
          else if req = true ∧ fk = none then " not null" else "") : String)).data ++
          (((if pk = true then " primary key" else "") : String).data ++ rest))) = true :=
    bdy_L3 ty _ hb45
  have hb2345 : boundaryB ((match fk with
      | some fkv => " references " ++ fkTable fkv ++ " (" ++ fkColumn fkv ++ ")"
      | none => "").data ++
      ((((if ty = "date" ∨ jsIncludes ty "timestamp" = true then " default now()"
        else "") : String)).data ++
        ((((if req = true ∧ ty = "uuid" ∧ fk = none then " default uuid_generate_v4()"
          else if req = true ∧ fk = none then " not null" else "") : String)).data ++
          (((if pk = true then " primary key" else "") : String).data ++ rest)))) = true :=
    bdy_L2 fk _ hb345
  have hb12345 : boundaryB
      ((((if ty = "integer" ∧ pk = true then " serial" else " " ++ ty) : String)).data ++
        ((match fk with
          | some fkv => " references " ++ fkTable fkv ++ " (" ++ fkColumn fkv ++ ")"
          | none => "").data ++
          ((((if ty = "date" ∨ jsIncludes ty "timestamp" = true then " default now()"
            else "") : String)).data ++
            ((((if req = true ∧ ty = "uuid" ∧ fk = none then " default uuid_generate_v4()"
              else if req = true ∧ fk = none then " not null" else "") : String)).data ++
              (((if pk = true then " primary key" else "") : String).data ++ rest))))) = true :=
    bdy_L1 ty pk _
  simp only [columnSQLSpec, columnTokens, titleTok, fmtTok, String.data_append,
    List.append_assoc]
  rw [tok_L0 title ht _ hb12345, tok_L1 ty pk hfw _ hb2345, tok_L2 fk hfk _,
    tok_L3 ty _, tok_L4 req ty fk _ hb5, tok_L5 pk rest hb]
  rcases fk with _ | f <;> simp [List.append_assoc]

set_option maxHeartbeats 2000000 in
theorem columnSQL_eq_spec (c : Column) : columnSQL c = columnSQLSpec c := by
  obtain ⟨title, ty, fmt, dflt, req, pk, fk, ev, etn, cm⟩ := c
  by_cases hres : reservedKeyword.contains title = true
  · have hres' : title ∈ reservedSpec := (reserved_iff title).mp hres
    rcases fk with _ | fk <;>
      (simp only [columnSQL, columnSQLSpec, hres, hres']
       split_ifs <;>
         simp only [String.append_assoc, String.append_empty,
           String.empty_append])
  · have hres' : title ∉ reservedSpec := fun h => hres ((reserved_iff title).mpr h)
    rcases fk with _ | fk <;>
      (simp only [columnSQL, columnSQLSpec, hres, hres']
       split_ifs <;>
         simp only [String.append_assoc, String.append_empty,
           String.empty_append])

theorem columnsSQL_eq_spec (cols : List Column) :
    columnsSQL cols = columnsSQLSpec cols := by
  induction cols using columnsSQL.induct with
  | case1 => rfl
  | case2 c => simp [columnsSQL, columnsSQLSpec, columnSQL_eq_spec]
  | case3 c c2 rest ih =>
      simp only [columnsSQL, columnsSQLSpec, columnSQL_eq_spec]
      rw [ih]

/-- Token sequence of a comma-separated column list. -/
def columnsTokens : List Column → List String
  | [] => []
  | [c] => columnTokens c
  | c :: rest => columnTokens c ++ "," :: columnsTokens rest

/-- Tokenizing the generated column block yields the columns' tokens with
comma separators. -/
theorem tokenize_columns (cols : List Column) (h : ∀ c ∈ cols, wfColumn c)
    (rest : List Char) :
    tokenizeAux ((columnsSQLSpec cols).data ++ rest) [] =
      columnsTokens cols ++ tokenizeAux rest [] := by
  induction cols using columnsSQL.induct with
  | case1 => exact congrArg (tokenizeAux rest) rfl
  | case2 c =>
      have h1 : (columnSQLSpec c ++ "\n").data ++ rest =
          (columnSQLSpec c).data ++ ('\n' :: rest) := by
        simp only [String.data_append, List.append_assoc]
        rfl
      rw [show columnsSQLSpec [c] = columnSQLSpec c ++ "\n" from rfl, h1,
        tokenize_column c (h c (by simp)) ('\n' :: rest) rfl,
        tokenizeAux_space _ _ (by decide)]
      rfl
  | case3 c tail hne ih =>
      rcases tail with _ | ⟨c2, more⟩
      · exact absurd rfl hne
      have h1 : (columnSQLSpec c ++ ",\n" ++ columnsSQLSpec (c2 :: more)).data ++ rest =
          (columnSQLSpec c).data ++
            (',' :: '\n' :: ((columnsSQLSpec (c2 :: more)).data ++ rest)) := by
        simp only [String.data_append, List.append_assoc]
        rfl
      rw [show columnsSQLSpec (c :: c2 :: more) =
          columnSQLSpec c ++ ",\n" ++ columnsSQLSpec (c2 :: more) from rfl, h1,
        tokenize_column c (h c (by simp))
          (',' :: '\n' :: ((columnsSQLSpec (c2 :: more)).data ++ rest)) rfl,
        tokenizeAux_delim _ _ (by decide) (by decide),
        tokenizeAux_space _ _ (by decide),
        ih (fun c hc => h c (List.mem_cons_of_mem _ hc))]
      simp [columnsTokens, List.append_assoc]

/-- Token sequence of one generated `create table` statement. -/
def tableTokens (v : String) (t : Table) : List String :=
  "create" :: "table" :: v :: "(" :: (columnsTokens t.columns ++ [")", ";"])

/-- Tokenizing one generated `create table` statement. -/
theorem tokenize_table (v : String) (t : Table) (hv : wordLike v)
    (hcols : ∀ c ∈ t.columns, wfColumn c) (rest : List Char) :
    tokenizeAux ((tableSQL v t).data ++ rest) [] =
      tableTokens v t ++ tokenizeAux rest [] := by
  have h1 : (tableSQL v t).data ++ rest =
      ("create" : String).data ++ (' ' :: (("table" : String).data ++ (' ' :: (v.data ++
        (' ' :: '(' :: '\n' :: ((columnsSQLSpec t.columns).data ++
          (')' :: ';' :: '\n' :: '\n' :: rest))))))) := by
    simp only [tableSQL, columnsSQL_eq_spec, String.data_append, List.append_assoc]
    rfl
  rw [h1, tokenizeAux_token _ _ (by decide) (by decide) (boundaryB_space _),
    tokenizeAux_space _ _ (by decide),
    tokenizeAux_token _ _ (by decide) (by decide) (boundaryB_space _),
    tokenizeAux_space _ _ (by decide),
    tokenizeAux_token _ _ hv.1
      (fun ch hch => wordChar_not_space (hv.2 ch hch)) (boundaryB_space _),
    tokenizeAux_space _ _ (by decide),
    tokenizeAux_delim _ _ (by decide) (by decide),
    tokenizeAux_space _ _ (by decide),
    tokenize_columns t.columns hcols (')' :: ';' :: '\n' :: '\n' :: rest),
    tokenizeAux_delim _ _ (by decide) (by decide),
    tokenizeAux_delim _ _ (by decide) (by decide),
    tokenizeAux_space _ _ (by decide),
    tokenizeAux_space _ _ (by decide), string_mk_data]
  simp [tableTokens, List.append_assoc]

/-- `emitTables` written as plain recursion over the order list. -/
def emitTablesR (tables : TableState) : List String → String
  | [] => ""
  | v :: vs =>
      (match jsGet tables v with
        | none => ""
        | some t => if t.is_view then "" else tableSQL v t) ++ emitTablesR tables vs

theorem emitTables_acc (tables : TableState) (order : List String) (code : String) :
    order.foldl
      (fun code v =>
        match jsGet tables v with
        | none => code
        | some t => if t.is_view then code else code ++ tableSQL v t)
      code = code ++ emitTablesR tables order := by
  induction order generalizing code with
  | nil => simp [emitTablesR]
  | cons v vs ih =>
      simp only [List.foldl, emitTablesR]
      rcases hv : jsGet tables v with _ | t
      · dsimp only
        rw [ih]
        simp [String.empty_append]
      · dsimp only
        by_cases hview : t.is_view
        · rw [if_pos hview, if_pos hview, ih]
          simp [String.empty_append]
        · rw [if_neg hview, if_neg hview, ih]
          simp [String.append_assoc]

theorem emitTables_eq (tables : TableState) (order : List String) :
    emitTables tables order = emitTablesR tables order := by
  unfold emitTables
  rw [emitTables_acc]
  simp [String.empty_append]

/-- Token sequence of the whole emitted DDL stream. -/
def streamTokens (tables : TableState) : List String → List String
  | [] => []
  | v :: vs =>
      (match jsGet tables v with
        | none => []
        | some t => if t.is_view then [] else tableTokens v t) ++ streamTokens tables vs

/-- Tokenizing the emitted stream yields the tables' token sequences in
order. -/
theorem tokenize_stream (tables : TableState) (order : List String)
    (hwf : ∀ v ∈ order, ∃ t, jsGet tables v = some t ∧ wfTable v t) :
    tokenize (emitTablesR tables order) = streamTokens tables order := by
  induction order with
  | nil => rfl
  | cons v vs ih =>
      obtain ⟨t, hget, hv⟩ := hwf v (List.mem_cons_self v vs)
      have hview : t.is_view = false := hv.2.1
      have h1 : emitTablesR tables (v :: vs) =
          tableSQL v t ++ emitTablesR tables vs := by
        simp [emitTablesR, hget, hview]
      have h2 : streamTokens tables (v :: vs) =
          tableTokens v t ++ streamTokens tables vs := by
        simp [streamTokens, hget, hview]
      rw [h1, h2]
      show tokenizeAux (tableSQL v t ++ emitTablesR tables vs).data [] = _
      have h3 : (tableSQL v t ++ emitTablesR tables vs).data =
          (tableSQL v t).data ++ (emitTablesR tables vs).data := by
        simp [String.data_append]
      rw [h3, tokenize_table v t hv.1 hv.2.2.2.2 _]
      exact congrArg (fun l => tableTokens v t ++ l)
        (ih (fun v' hv' => hwf v' (List.mem_cons_of_mem _ hv')))

theorem titleTok_ne_rparen (c : Column) (hc : wfColumn c) : titleTok c ≠ ")" := by
  have ht := hc.1
  unfold titleTok
  split
  · intro h
    have hd : ("\"" ++ c.title ++ "\"").data = '"' :: (c.title.data ++ ['"']) := by
      simp only [String.data_append, List.append_assoc]
      rfl
    have hx : ('"' : Char) :: (c.title.data ++ ['"']) = [')'] := by
      rw [← hd, h]
    injection hx with hh _
    exact absurd hh (by decide)
  · intro h
    rw [h] at ht
    exact absurd (ht.2 ')' (by decide)) (by decide)

theorem columnTokens_two_le (c : Column) : 2 ≤ (columnTokens c).length := by
  simp only [columnTokens, List.length_cons]
  omega

theorem columnsTokens_length (cols : List Column) :
    cols.length ≤ (columnsTokens cols).length := by
  induction cols using columnsSQL.induct with
  | case1 => simp [columnsTokens]
  | case2 c =>
      have := columnTokens_two_le c
      simp only [columnsTokens, List.length_cons, List.length_nil]
      omega
  | case3 c tail hne ih =>
      rcases tail with _ | ⟨c2, more⟩
      · exact absurd rfl hne
      · have := columnTokens_two_le c
        simp only [columnsTokens, List.length_append, List.length_cons] at *
        omega

theorem parseColumnsTok_step (fuel : Nat) (toks : List String)
    (hne : ∀ r, toks ≠ ")" :: ";" :: r) :
    parseColumnsTok (fuel + 1) toks =
      match parseOneColumn toks with
      | none => none
      | some (c, rest) =>
          match rest with
          | "," :: rest' =>
              match parseColumnsTok fuel rest' with
              | some (cs, rest'') => some (c :: cs, rest'')
              | none => none
          | ")" :: ";" :: rest' => some ([c], rest')
          | _ => none := by
  rw [parseColumnsTok.eq_def]
  split
  · omega
  · rename_i heq r
    exact absurd rfl (hne _)
  · rename_i a b f2 heq hx
    have hf : f2 = fuel := by omega
    subst hf
    rfl

theorem columnTokens_append_ne (c : Column) (hc : wfColumn c) (X : List String) :
    ∀ r, columnTokens c ++ X ≠ ")" :: ";" :: r := by
  intro r h
  simp only [columnTokens, List.cons_append] at h
  injection h with h1 _
  exact titleTok_ne_rparen c hc h1

/-- The column-list parser inverts the emitted column tokens, returning the
original columns and the tokens after the closing delimiter. -/
theorem parseColumnsTok_tokens (cols : List Column) (h : ∀ c ∈ cols, wfColumn c)
    (rest : List String) (fuel : Nat) (hf : cols.length < fuel) :
    parseColumnsTok fuel (columnsTokens cols ++ ")" :: ";" :: rest) =
      some (cols, rest) := by
  revert h
  induction cols using columnsSQL.induct generalizing rest fuel with
  | case1 =>
      intro h
      cases fuel with
      | zero => omega
      | succ n => rfl
  | case2 c =>
      intro h
      cases fuel with
      | zero => omega
      | succ n =>
          have hc := h c (by simp)
          rw [show columnsTokens [c] ++ ")" :: ";" :: rest =
              columnTokens c ++ ")" :: ";" :: rest from rfl,
            parseColumnsTok_step n _ (columnTokens_append_ne c hc _),
            parseOneColumn_tokens c hc ")" (";" :: rest) (Or.inr rfl)]
          rfl
  | case3 c tail hne0 ih =>
      intro h
      rcases tail with _ | ⟨c2, more⟩
      · exact absurd rfl hne0
      cases fuel with
      | zero => omega
      | succ n =>
          have hc := h c (by simp)
          have hassoc : columnsTokens (c :: c2 :: more) ++ ")" :: ";" :: rest =
              columnTokens c ++
                "," :: (columnsTokens (c2 :: more) ++ ")" :: ";" :: rest) := by
            simp [columnsTokens, List.append_assoc]
          rw [hassoc, parseColumnsTok_step n _ (columnTokens_append_ne c hc _),
            parseOneColumn_tokens c hc "," _ (Or.inl rfl)]
          have hih := ih rest n (by simp at hf ⊢; omega)
            (fun c' hc' => h c' (List.mem_cons_of_mem _ hc'))
          simp only [hih]

/-- The table reconstructed by the parser from an identifier token and a
column list. -/
def parsedTable (v : String) (cols : List Column) : Table :=
  { title := (parseTableIdentifier v).name
    schema := some (jsOrStr (parseTableIdentifier v).schema "public")
    is_view := false
    columns := cols
    position := { x := 0, y := 0 } }

/-- The state the parser reconstructs from the emitted stream. -/
def parsedState (tables : TableState) : List String → TableState
  | [] => []
  | v :: vs =>
      (v, parsedTable v (match jsGet tables v with
        | some t => t.columns
        | none => [])) :: parsedState tables vs

theorem streamTokens_length (tables : TableState) (order : List String)
    (hwf : ∀ v ∈ order, ∃ t, jsGet tables v = some t ∧ wfTable v t) :
    order.length ≤ (streamTokens tables order).length := by
  induction order with
  | nil => simp [streamTokens]
  | cons v vs ih =>
      obtain ⟨t, hget, hv⟩ := hwf v (List.mem_cons_self v vs)
      have hrest := ih (fun v' h' => hwf v' (List.mem_cons_of_mem _ h'))
      simp [streamTokens, hget, hv.2.1, tableTokens]
      omega

/-- The table-stream parser inverts the emitted token stream. -/
theorem parseTablesTok_tokens (tables : TableState) (order : List String) (fuel : Nat)
    (hwf : ∀ v ∈ order, ∃ t, jsGet tables v = some t ∧ wfTable v t)
    (hf : order.length < fuel) :
    parseTablesTok fuel (streamTokens tables order) =
      some (parsedState tables order) := by
  revert hf hwf
  induction order generalizing fuel with
  | nil =>
      intro hwf hf
      cases fuel with
      | zero => omega
      | succ n => rfl
  | cons v vs ih =>
      intro hwf hf
      cases fuel with
      | zero => omega
      | succ n =>
          obtain ⟨t, hget, hv⟩ := hwf v (List.mem_cons_self v vs)
          have hstream : streamTokens tables (v :: vs) =
              "create" :: "table" :: v :: "(" ::
                (columnsTokens t.columns ++ ")" :: ";" :: streamTokens tables vs) := by
            simp [streamTokens, hget, hv.2.1, tableTokens, List.append_assoc]
          rw [hstream]
          simp only [parseTablesTok]
          have hlen : t.columns.length <
              (columnsTokens t.columns ++ ")" :: ";" :: streamTokens tables vs).length + 1 := by
            have := columnsTokens_length t.columns
            simp only [List.length_append, List.length_cons]
            omega
          rw [parseColumnsTok_tokens t.columns hv.2.2.2.2 (streamTokens tables vs) _ hlen]
          dsimp only
          rw [ih n (fun v' h' => hwf v' (List.mem_cons_of_mem _ h'))
            (by simp at hf ⊢; omega)]
          simp [parsedState, parsedTable, hget]

theorem jsGet_parsedState (tables : TableState) (order : List String) (k : String) :
    jsGet (parsedState tables order) k =
      if k ∈ order then
        some (parsedTable k (match jsGet tables k with
          | some t => t.columns
          | none => []))
      else none := by
  induction order with
  | nil => simp [parsedState, jsGet]
  | cons v vs ih =>
      rw [show parsedState tables (v :: vs) =
        (v, parsedTable v (match jsGet tables v with
          | some t => t.columns
          | none => [])) :: parsedState tables vs from rfl, jsGet_cons]
      by_cases hk : v = k
      · subst hk
        simp [List.mem_cons]
      · have hk' : ¬(k = v) := fun h => hk h.symm
        simp [hk, hk', ih, List.mem_cons]

/-- One orderer pass only rearranges: output and still-pending keys together
are a permutation of what came in. -/
theorem orderPass_perm (deps : String → List String) (output keys : List String) :
    List.Perm ((orderPass deps output keys).2 ++ (orderPass deps output keys).1)
      (output ++ keys) := by
  induction output, keys using orderPass.induct deps with
  | case1 output => exact List.Perm.refl _
  | case2 output k hcond =>
      simp only [orderPass, if_pos hcond, List.append_nil]
      exact List.Perm.refl _
  | case3 output k hcond =>
      simp only [orderPass, if_neg hcond]
      exact List.Perm.refl _
  | case4 output k next rest hcond ih =>
      simp only [orderPass, if_pos hcond]
      have h3 : List.Perm (next :: ((output ++ [k]) ++ rest))
          (output ++ k :: next :: rest) := by
        have he : (output ++ [k]) ++ next :: rest = output ++ k :: next :: rest := by
          simp
        exact he ▸ List.perm_middle.symm
      exact (List.perm_middle.trans (ih.cons next)).trans h3
  | case5 output k next rest hcond ih =>
      simp only [orderPass, if_neg hcond]
      exact List.perm_middle.trans ((ih.cons k).trans List.perm_middle.symm)

theorem orderLoop_perm (deps : String → List String) (fuel : Nat)
    (keys output out : List String)
    (h : orderLoop deps fuel keys output = some out) :
    List.Perm out (output ++ keys) := by
  induction fuel generalizing keys output with
  | zero => simp [orderLoop] at h
  | succ n ih =>
      rw [orderLoop] at h
      by_cases hk : keys.isEmpty
      · rw [if_pos hk] at h
        injection h with h
        subst h
        rw [List.isEmpty_iff.mp hk]
        simp
      · rw [if_neg hk] at h
        exact (ih _ _ h).trans (orderPass_perm deps output keys)

/-- A completed ordering is a permutation of the table keys. -/
theorem orderTables_perm (fuel : Nat) (tables : TableState) (out : List String)
    (h : orderTables fuel tables = some out) : List.Perm out (jsKeys tables) := by
  have := orderLoop_perm (depsIn tables) fuel (jsKeys tables) [] out h
  simpa using this

theorem jsGet_isSome_iff_mem (tables : TableState) (k : String) :
    (jsGet tables k).isSome = true ↔ k ∈ jsKeys tables := by
  induction tables with
  | nil => simp [jsGet, jsKeys]
  | cons e rest ih =>
      rw [jsGet_cons]
      by_cases h : e.1 = k
      · simp [h, jsKeys]
      · have h' : ¬(k = e.1) := fun hh => h hh.symm
        simp only [if_neg h, jsKeys, List.map_cons, List.mem_cons]
        rw [ih]
        simp [h', jsKeys]

theorem jsGet_mem (tables : TableState) (k : String) (t : Table)
    (h : jsGet tables k = some t) : (k, t) ∈ tables := by
  induction tables with
  | nil => simp [jsGet] at h
  | cons e rest ih =>
      rw [jsGet_cons] at h
      by_cases he : e.1 = k
      · rw [if_pos he] at h
        injection h with h2
        cases e
        simp_all
      · rw [if_neg he] at h
        exact List.mem_cons_of_mem _ (ih h)

end SupabaseSchema

namespace SupabaseSchema

/-- C5. Once the abort signal has fired, every tool invocation (the nine
tools of the agent route) short-circuits with
`{ok:false, message:"Operation cancelled"}` and leaves the state untouched;
hence any sequence of invocations after the abort point leaves the schema
(table count, column counts, every column field) exactly as it was at abort
time. -/
theorem abort_short_circuits_all_tools (call : ToolCall) (calls : List ToolCall)
    (st : AgentState) (h : st.aborted = true) :
    execTool call st = (ToolResult.failure "Operation cancelled", st) ∧
    (runTrace calls st).2 = st ∧
    (runTrace calls st).2.schemaState = st.schemaState ∧
    (∀ r ∈ (runTrace calls st).1, r = ToolResult.failure "Operation cancelled") := by
  have h1 := execTool_aborted call st h
  have h2 := runTrace_aborted calls st h
  refine ⟨h1, by rw [h2], by rw [h2], ?_⟩
  intro r hr
  rw [h2] at hr
  simp only [List.mem_map] at hr
  obtain ⟨c, _, hc⟩ := hr
  rw [← hc]
  rfl

/-- Witness for `abort_short_circuits_all_tools`: a concrete aborted state
where `dropTable` (and a follow-up sequence) is a no-op. -/
theorem abort_short_circuits_all_tools_witness :
    execTool (ToolCall.dropTable ⟨"users"⟩) (mkState [("users", usersTable)] true) =
      (ToolResult.failure "Operation cancelled",
        mkState [("users", usersTable)] true) ∧
    (runTrace [ToolCall.dropTable ⟨"users"⟩,
      ToolCall.addColumn ⟨"users", { title := "age" }⟩]
      (mkState [("users", usersTable)] true)).2.schemaState =
      [("users", usersTable)] :=
  ⟨(abort_short_circuits_all_tools (ToolCall.dropTable ⟨"users"⟩) []
      (mkState [("users", usersTable)] true) rfl).1,
   (abort_short_circuits_all_tools (ToolCall.dropTable ⟨"users"⟩)
      [ToolCall.dropTable ⟨"users"⟩,
       ToolCall.addColumn ⟨"users", { title := "age" }⟩]
      (mkState [("users", usersTable)] true) rfl).2.2.1⟩

/-- C4. `addColumn` on an existing table with a fresh column title succeeds,
appending the normalized column; an immediately repeated call with the same
title returns `ok:false` and leaves the column count unchanged; and
`addColumn` on an absent table returns `ok:false` without touching the
state. -/
theorem addColumn_duplicate_rejected (st : AgentState) (id : String)
    (c : ColumnInput) (hab : st.aborted = false) :
    (∀ t, jsGet st.schemaState id = some t →
      t.columns.any (fun col => col.title = (normaliseColumn c).title) = false →
      (execAddColumn ⟨id, c⟩ st).1 =
        ToolResult.success ("Added column " ++ sq ++ (normaliseColumn c).title ++
          sq ++ " to " ++ sq ++ id ++ sq) ∧
      jsGet (execAddColumn ⟨id, c⟩ st).2.schemaState id =
        some { t with columns := t.columns ++ [normaliseColumn c] } ∧
      (∃ m, (execAddColumn ⟨id, c⟩ (execAddColumn ⟨id, c⟩ st).2).1 =
        ToolResult.failure m) ∧
      (execAddColumn ⟨id, c⟩ (execAddColumn ⟨id, c⟩ st).2).2.schemaState =
        (execAddColumn ⟨id, c⟩ st).2.schemaState ∧
      (∀ t', jsGet (execAddColumn ⟨id, c⟩
          (execAddColumn ⟨id, c⟩ st).2).2.schemaState id = some t' →
        t'.columns.length = t.columns.length + 1)) ∧
    (jsGet st.schemaState id = none →
      (∃ m, (execAddColumn ⟨id, c⟩ st).1 = ToolResult.failure m) ∧
      (execAddColumn ⟨id, c⟩ st).2 = st) := by
  constructor
  · intro t ht hdup
    have e2 : jsGet (execAddColumn ⟨id, c⟩ st).2.schemaState id =
        some { t with columns := t.columns ++ [normaliseColumn c] } := by
      simp [execAddColumn, hab, ht, hdup, recordOperation, cloneTable, jsGet_jsSet]
    have hab1 : (execAddColumn ⟨id, c⟩ st).2.aborted = false := by
      simp [execAddColumn, hab, ht, hdup, recordOperation, cloneTable]
    have hany : ({ t with columns := t.columns ++ [normaliseColumn c] } :
        Table).columns.any (fun col => col.title = (normaliseColumn c).title)
        = true := by
      simp
    refine ⟨?_, e2, ?_, ?_, ?_⟩
    · simp [execAddColumn, hab, ht, hdup]
    · exact ⟨_, by rw [execAddColumn, if_neg (by simp [hab1]), e2]; simp [hany]; rfl⟩
    · rw [execAddColumn, if_neg (by simp [hab1]), e2]
      simp [hany]
    · intro t' ht'
      rw [execAddColumn, if_neg (by simp [hab1]), e2] at ht'
      simp only [hany, if_true] at ht'
      rw [e2] at ht'
      simp only [Option.some_inj] at ht'
      rw [← ht']
      simp
  · intro ht
    exact ⟨⟨_, by simp [execAddColumn, hab, ht]; rfl⟩,
      by simp [execAddColumn, hab, ht]⟩

/-- Witness for `addColumn_duplicate_rejected`: adding an `age` column to the
concrete `users` table succeeds once and is rejected on the repeat. -/
theorem addColumn_duplicate_rejected_witness :
    (execAddColumn ⟨"users", { title := "age", type := some "int4" }⟩
      (mkState [("users", usersTable)] false)).1 =
      ToolResult.success ("Added column " ++ sq ++ "age" ++ sq ++ " to " ++
        sq ++ "users" ++ sq) ∧
    (∃ m, (execAddColumn ⟨"users", { title := "age", type := some "int4" }⟩
      (execAddColumn ⟨"users", { title := "age", type := some "int4" }⟩
        (mkState [("users", usersTable)] false)).2).1 =
      ToolResult.failure m) := by
  have h := (addColumn_duplicate_rejected (mkState [("users", usersTable)] false)
    "users" { title := "age", type := some "int4" } rfl).1 usersTable
    (by simp [mkState, jsGet_cons]) (by decide)
  exact ⟨h.1, h.2.2.1⟩

/-- C6. A successful `renameTable` moves only the source entry to the new
key, re-deriving `title`/`schema` from the new identifier while keeping the
columns and position; every other table — in particular a table whose column
holds a dangling `fk` string into the old name — is left byte-for-byte
unmodified; renaming an absent table fails without touching the state. -/
theorem renameTable_moves_only_source (st : AgentState) (fromId toId : String)
    (hab : st.aborted = false) :
    (∀ src, jsGet st.schemaState fromId = some src →
      (∃ m, (execRenameTable ⟨fromId, toId⟩ st).1 = ToolResult.success m) ∧
      jsGet (execRenameTable ⟨fromId, toId⟩ st).2.schemaState toId =
        some { src with
          schema := some (jsOrStr (parseTableIdentifier toId).schema
            (jsOrStr src.schema "public"))
          title := (parseTableIdentifier toId).name } ∧
      (∀ t', jsGet (execRenameTable ⟨fromId, toId⟩ st).2.schemaState toId =
          some t' → t'.columns = src.columns ∧ t'.position = src.position) ∧
      (fromId ≠ toId →
        jsGet (execRenameTable ⟨fromId, toId⟩ st).2.schemaState fromId = none) ∧
      (∀ k, k ≠ fromId → k ≠ toId →
        jsGet (execRenameTable ⟨fromId, toId⟩ st).2.schemaState k =
          jsGet st.schemaState k)) ∧
    (jsGet st.schemaState fromId = none →
      (∃ m, (execRenameTable ⟨fromId, toId⟩ st).1 = ToolResult.failure m) ∧
      (execRenameTable ⟨fromId, toId⟩ st).2 = st) := by
  constructor
  · intro src hsrc
    have e2 : (execRenameTable ⟨fromId, toId⟩ st).2.schemaState =
        jsSet (jsDelete st.schemaState fromId) toId
          { src with
            schema := some (jsOrStr (parseTableIdentifier toId).schema
              (jsOrStr src.schema "public"))
            title := (parseTableIdentifier toId).name } := by
      simp [execRenameTable, hab, hsrc, recordOperation, cloneTable]
    refine ⟨⟨_, by simp [execRenameTable, hab, hsrc]; rfl⟩, ?_, ?_, ?_, ?_⟩
    · rw [e2, jsGet_jsSet]
      simp
    · intro t' ht'
      rw [e2, jsGet_jsSet, if_pos rfl] at ht'
      simp only [Option.some_inj] at ht'
      rw [← ht']
      exact ⟨rfl, rfl⟩
    · intro hne
      rw [e2, jsGet_jsSet, if_neg hne, jsGet_jsDelete, if_pos rfl]
    · intro k hkf hkt
      rw [e2, jsGet_jsSet, if_neg hkt, jsGet_jsDelete, if_neg hkf]
  · intro hsrc
    exact ⟨⟨_, by simp [execRenameTable, hab, hsrc]; rfl⟩,
      by simp [execRenameTable, hab, hsrc]⟩

/-- Witness for `renameTable_moves_only_source`: renaming `users` to
`app_users` in the concrete two-table schema leaves `posts` (with its
dangling `fk = "users.id"`) untouched. -/
theorem renameTable_moves_only_source_witness :
    (∃ m, (execRenameTable ⟨"users", "app_users"⟩
      (mkState [("users", usersTable), ("posts", postsTable)] false)).1 =
      ToolResult.success m) ∧
    jsGet (execRenameTable ⟨"users", "app_users"⟩
      (mkState [("users", usersTable), ("posts", postsTable)] false)).2.schemaState
      "posts" = some postsTable ∧
    jsGet (execRenameTable ⟨"users", "app_users"⟩
      (mkState [("users", usersTable), ("posts", postsTable)] false)).2.schemaState
      "users" = none := by
  have h := (renameTable_moves_only_source
    (mkState [("users", usersTable), ("posts", postsTable)] false)
    "users" "app_users" rfl).1 usersTable (by simp [mkState, jsGet_cons])
  refine ⟨h.1, ?_, h.2.2.2.1 (by decide)⟩
  have := h.2.2.2.2 "posts" (by decide) (by decide)
  rw [this]
  simp [mkState, jsGet_cons]

end SupabaseSchema

namespace SupabaseSchema

/-- A pass that makes no progress keeps the loop running out of any amount
of fuel (the source loop, which has no fuel, never terminates). -/
theorem orderLoop_stuck (deps : String → List String) (keys output : List String)
    (hne : keys.isEmpty = false)
    (hfix : orderPass deps output keys = (keys, output)) :
    ∀ fuel, orderLoop deps fuel keys output = none := by
  intro fuel
  induction fuel with
  | zero => rfl
  | succ n ih =>
      rw [orderLoop, if_neg (by simp [hne]), hfix]
      exact ih

set_option maxRecDepth 100000 in
/-- C1. Whenever the dependency orderer completes on a table state with
distinct keys, its output never places a table before a table it
foreign-keys into; and on the concrete users/posts schema the generated
SQL contains `create table users (` strictly before
`create table posts (`. -/
theorem dependency_order_correct :
    (∀ (tables : TableState) (fuel : Nat) (out : List String),
      (jsKeys tables).Nodup →
      orderTables fuel tables = some out →
      List.Pairwise (fun a b => b ∉ depsIn tables a) out) ∧
    (∃ x y z, generateSQL 10 [("users", usersTable), ("posts", postsTable)] =
      some (x ++ ("create table users (" ++ (y ++ ("create table posts (" ++ z))))) := by
  constructor
  · intro tables fuel out hN h
    exact orderLoop_ordered (depsIn tables) fuel _ [] out hN (by simp) (by simp)
      (by simp) h
  · refine ⟨"",
      "\n  id uuid default uuid_generate_v4() primary key,\n  email text not null\n);\n\n",
      "\n  id uuid primary key,\n  user_id uuid references users (id)\n);\n\n", ?_⟩
    decide

/-- Witness for `dependency_order_correct`: the completed order on the
concrete users/posts schema is dependency-ordered. -/
theorem dependency_order_correct_witness :
    List.Pairwise
      (fun a b => b ∉ depsIn [("users", usersTable), ("posts", postsTable)] a)
      ["users", "posts"] :=
  dependency_order_correct.1 [("users", usersTable), ("posts", postsTable)] 10
    ["users", "posts"] (by decide) (by decide)

/-- C2. On a schema whose FK references form a true two-table cycle, the
dependency-ordering loop makes no progress in any pass, so it never
terminates, for any amount of fuel — there is no iteration cap, no cycle
detection and no `CyclicDependencyError` anywhere in the code. -/
theorem cyclic_dependency_never_terminates :
    ∀ fuel, orderTables fuel cyclicTables = none := by
  intro fuel
  have hfix : orderPass (depsIn cyclicTables) [] (jsKeys cyclicTables) =
      (jsKeys cyclicTables, []) := by decide
  exact orderLoop_stuck _ _ _ (by decide) hfix fuel

/-- Example fixture: a view (structural metadata only, no DDL form). -/
def activeUsersView : Table :=
  { title := "active_users", schema := some "public", is_view := true
    columns := [{ title := "id", type := "uuid", format := "uuid" }]
    position := { x := 0, y := 0 } }

set_option maxHeartbeats 2000000 in
/-- C8. The generated CREATE TABLE text assembles each column line by the
fixed rule the specification states (quoting iff reserved, `serial` iff
integer primary key, `references` iff `fk`, `default now()` for
date/timestamp formats, `default uuid_generate_v4()` for required uuid
non-FK columns else `not null` for required non-FK columns, `primary key`
iff `pk`), separates lines by comma+newline with a bare newline after the
last, wraps them in `create table <id> (...);`, and skips `is_view` tables
from DDL emission entirely. -/
theorem create_table_emission :
    (∀ c, columnSQL c = columnSQLSpec c) ∧
    (∀ cols, columnsSQL cols = columnsSQLSpec cols) ∧
    (∀ id t, tableSQL id t =
      "create table " ++ id ++ " (\n" ++ columnsSQLSpec t.columns ++ ");\n\n") ∧
    (∀ tables v t out1 out2, jsGet tables v = some t → t.is_view = true →
      emitTables tables (out1 ++ v :: out2) = emitTables tables (out1 ++ out2)) := by
  refine ⟨columnSQL_eq_spec, columnsSQL_eq_spec, ?_, ?_⟩
  · intro id t
    rw [tableSQL, columnsSQL_eq_spec]
  · intro tables v t out1 out2 hv hview
    unfold emitTables
    rw [List.foldl_append, List.foldl_append, List.foldl_cons, hv]
    simp [hview]

/-- Witness for `create_table_emission`: the concrete view table is skipped
from emission. -/
theorem create_table_emission_witness :
    emitTables [("active_users", activeUsersView), ("users", usersTable)]
      ([] ++ "active_users" :: ["users"]) =
    emitTables [("active_users", activeUsersView), ("users", usersTable)]
      ([] ++ ["users"]) :=
  create_table_emission.2.2.2
    [("active_users", activeUsersView), ("users", usersTable)]
    "active_users" activeUsersView [] ["users"] (by decide) (by decide)

/-- C3 (amended). After any sequence of N successful mutation tool calls the
operation history holds exactly N records (failed invocations append none);
and when no call in the sequence is a rename that moves a table to a
different key, applying each new record's `before` snapshot in reverse
order reconstructs the pre-sequence schema state exactly (as a mapping;
records hold value snapshots, so no sharing with the live state is
possible).  The rename restriction is forced: a rename record stores only
the new key, see the counterexample. -/
theorem operation_history_fidelity (calls : List ToolCall) (st : AgentState)
    (hab : st.aborted = false)
    (hok : ∀ r ∈ (runTrace calls st).1, r.isMutationSuccess = true) :
    (runTrace calls st).2.operationHistory.length =
      st.operationHistory.length + calls.length ∧
    (∀ c st', ((execTool c st').1).isMutationSuccess = false →
      (execTool c st').2.operationHistory = st'.operationHistory) ∧
    ((∀ c ∈ calls, keyChangingRename c = false) →
      ∃ recs, (runTrace calls st).2.operationHistory =
          st.operationHistory ++ recs ∧
        MapEq (replayBefores (runTrace calls st).2.schemaState recs)
          st.schemaState) := by
  obtain ⟨recs, hh, hlen, hrep, _⟩ := runTrace_history calls st hab hok
  refine ⟨?_, step_fail, fun hnr => ⟨recs, hh, hrep hnr⟩⟩
  rw [hh]
  simp [hlen]

/-- Witness for `operation_history_fidelity`: two successful mutations on an
initially empty schema leave exactly two history records. -/
theorem operation_history_fidelity_witness :
    (runTrace
      [ToolCall.createTable ⟨"users",
        [{ title := "id", type := some "uuid", pk := some true,
           required := some true }], none⟩,
       ToolCall.addColumn ⟨"users", { title := "name", type := some "text" }⟩]
      (mkState [] false)).2.operationHistory.length = 0 + 2 :=
  (operation_history_fidelity
    [ToolCall.createTable ⟨"users",
      [{ title := "id", type := some "uuid", pk := some true,
         required := some true }], none⟩,
     ToolCall.addColumn ⟨"users", { title := "name", type := some "text" }⟩]
    (mkState [] false) rfl (by decide)).1

/-- C3 counterexample: one successful `renameTable` (a mutation success, one
record) whose record's `before` snapshot, replayed, does not reconstruct
the pre-sequence state — the record stores only the new key `app_users`, so
the replay leaves nothing under the original key `users`. -/
theorem operation_history_replay_counterexample :
    (∀ r ∈ (runTrace [ToolCall.renameTable ⟨"users", "app_users"⟩]
        (mkState [("users", usersTable)] false)).1,
      r.isMutationSuccess = true) ∧
    (runTrace [ToolCall.renameTable ⟨"users", "app_users"⟩]
        (mkState [("users", usersTable)] false)).2.operationHistory.length = 1 ∧
    ¬ MapEq
      (replayBefores
        (runTrace [ToolCall.renameTable ⟨"users", "app_users"⟩]
          (mkState [("users", usersTable)] false)).2.schemaState
        (runTrace [ToolCall.renameTable ⟨"users", "app_users"⟩]
          (mkState [("users", usersTable)] false)).2.operationHistory)
      (mkState [("users", usersTable)] false).schemaState := by
  refine ⟨by decide, by decide, fun h => ?_⟩
  exact absurd (h "users") (by decide)

/-- Example fixture: a table holding two columns with the same title (as the
legacy `add_column`, which never checks for duplicates, can produce). -/
def dupUsersTable : Table :=
  { title := "users", schema := some "public", is_view := false
    columns :=
      [{ title := "id", type := "uuid", format := "uuid", pk := true },
       { title := "tag", type := "text", format := "text" },
       { title := "tag", type := "text", format := "text" }]
    position := { x := 0, y := 0 } }

/-- C10. A single `dropColumn` call filters out every column whose title
equals the requested name (not only the first match); given the table
exists, it succeeds iff some column matched, and on no match it reports
`ok:false` with the column list unchanged; and the legacy `add_column`
appends its normalized column unconditionally — no duplicate-title check —
so same-titled columns can accumulate. -/
theorem dropColumn_removes_all_matches (st : AgentState) (id n : String)
    (hab : st.aborted = false) :
    (∀ t, jsGet st.schemaState id = some t →
      (∀ t', jsGet (execDropColumn ⟨id, n⟩ st).2.schemaState id = some t' →
        t'.columns = t.columns.filter (fun c => c.title ≠ n)) ∧
      ((∃ c ∈ t.columns, c.title = n) →
        ∃ m, (execDropColumn ⟨id, n⟩ st).1 = ToolResult.success m) ∧
      ((∀ c ∈ t.columns, c.title ≠ n) →
        (∃ m, (execDropColumn ⟨id, n⟩ st).1 = ToolResult.failure m) ∧
        (∀ t', jsGet (execDropColumn ⟨id, n⟩ st).2.schemaState id = some t' →
          t'.columns = t.columns))) ∧
    (∀ (ls : LegacyState) (tableId : String) (c : ColumnInput) (t : Table),
      jsGet ls.schemaState tableId = some t →
      ∃ t', jsGet (applyLegacyOp ls (.add_column tableId c)).schemaState tableId
          = some t' ∧ t'.columns = t.columns ++ [normaliseColumnLegacy c]) := by
  constructor
  · intro t ht
    have hstate : (execDropColumn ⟨id, n⟩ st).2.schemaState =
        jsSet st.schemaState id
          { t with columns := t.columns.filter (fun c => c.title ≠ n) } := by
      simp only [execDropColumn, hab, Bool.false_eq_true, if_false, ht]
      split <;> simp [recordOperation]
    refine ⟨?_, ?_, ?_⟩
    · intro t' ht'
      rw [hstate, jsGet_jsSet, if_pos rfl] at ht'
      simp only [Option.some_inj] at ht'
      rw [← ht']
    · intro hex
      have hlt : (t.columns.filter (fun c => c.title ≠ n)).length <
          t.columns.length := by
        refine List.length_filter_lt_length_iff_exists.mpr ?_
        obtain ⟨c, hc, hcn⟩ := hex
        exact ⟨c, hc, by simp [hcn]⟩
      have hne : ¬((t.columns.filter (fun c => c.title ≠ n)).length =
          t.columns.length) := by omega
      refine ⟨"Dropped column " ++ sq ++ n ++ sq ++ " from " ++ sq ++ id ++ sq, ?_⟩
      simp only [execDropColumn, hab, Bool.false_eq_true, if_false, ht]
      rw [if_neg hne]
    · intro hall
      have heq : t.columns.filter (fun c => c.title ≠ n) = t.columns :=
        List.filter_eq_self.mpr (fun c hc => by simpa using hall c hc)
      have hlen : (t.columns.filter (fun c => c.title ≠ n)).length =
          t.columns.length := by rw [heq]
      constructor
      · refine ⟨"Column " ++ sq ++ n ++ sq ++ " not found in " ++ sq ++ id ++ sq, ?_⟩
        simp only [execDropColumn, hab, Bool.false_eq_true, if_false, ht]
        rw [if_pos hlen]
      · intro t' ht'
        rw [hstate, jsGet_jsSet, if_pos rfl] at ht'
        simp only [Option.some_inj] at ht'
        rw [← ht']
        exact heq
  · intro ls tableId c t hget
    refine ⟨{ t with columns := t.columns ++ [normaliseColumnLegacy c] }, ?_, rfl⟩
    simp [applyLegacyOp, hget, jsGet_jsSet]

/-- Witness for `dropColumn_removes_all_matches`: dropping `tag` from the
duplicate-titled table removes both matching columns at once, and the
legacy `add_column` appends a second `id` column to `users` without
complaint. -/
theorem dropColumn_removes_all_matches_witness :
    (({ dupUsersTable with
        columns := [{ title := "id", type := "uuid", format := "uuid",
                      pk := true }] } : Table).columns =
      dupUsersTable.columns.filter (fun c => c.title ≠ "tag")) ∧
    (∃ m, (execDropColumn ⟨"users", "tag"⟩
      (mkState [("users", dupUsersTable)] false)).1 = ToolResult.success m) ∧
    (∃ t', jsGet (applyLegacyOp
        { schemaState := [("users", usersTable)], ok := true,
          operationsApplied := [] }
        (LegacyOp.add_column "users" { title := "id" })).schemaState "users"
        = some t' ∧
      t'.columns = usersTable.columns ++
        [normaliseColumnLegacy { title := "id" }]) := by
  have h := dropColumn_removes_all_matches
    (mkState [("users", dupUsersTable)] false) "users" "tag" rfl
  have h1 := (h.1 dupUsersTable (by decide)).1
    { dupUsersTable with
      columns := [{ title := "id", type := "uuid", format := "uuid",
                    pk := true }] } (by decide)
  have h2 := (h.1 dupUsersTable (by decide)).2.1 (by decide)
  have h3 := h.2
    { schemaState := [("users", usersTable)]
      ok := true
      operationsApplied := [] }
    "users" { title := "id" } usersTable (by decide)
  exact ⟨h1, h2, h3⟩

/-- C9. Column normalization resolves the type/format pair per call site:
the agent-tool path prefers the input's `format` as the canonical type and
defaults missing type info to `"text"`; the legacy path prefers the input's
`type` and defaults to `"string"`; a single supplied designator is copied
into both fields; on both paths `required`/`pk` default to `false` and
`fk`/`enumValues`/`comment` pass through without defaulting. -/
theorem normaliseColumn_type_format_policy (c : ColumnInput) :
    (∀ t f, c.type = some t → c.format = some f →
      (normaliseColumn c).type = f ∧ (normaliseColumn c).format = t ∧
      (normaliseColumnLegacy c).type = t ∧ (normaliseColumnLegacy c).format = f) ∧
    (c.type = none → c.format = none →
      (normaliseColumn c).type = "text" ∧ (normaliseColumn c).format = "text" ∧
      (normaliseColumnLegacy c).type = "string" ∧
      (normaliseColumnLegacy c).format = "string") ∧
    (∀ t, c.type = some t → c.format = none →
      (normaliseColumn c).type = t ∧ (normaliseColumn c).format = t ∧
      (normaliseColumnLegacy c).type = t ∧ (normaliseColumnLegacy c).format = t) ∧
    (∀ f, c.type = none → c.format = some f →
      (normaliseColumn c).type = f ∧ (normaliseColumn c).format = f ∧
      (normaliseColumnLegacy c).type = f ∧ (normaliseColumnLegacy c).format = f) ∧
    ((normaliseColumn c).required = c.required.getD false ∧
      (normaliseColumn c).pk = c.pk.getD false ∧
      (normaliseColumnLegacy c).required = c.required.getD false ∧
      (normaliseColumnLegacy c).pk = c.pk.getD false) ∧
    ((normaliseColumn c).fk = c.fk ∧ (normaliseColumn c).enumValues = c.enumValues ∧
      (normaliseColumn c).comment = c.comment ∧
      (normaliseColumnLegacy c).fk = c.fk ∧
      (normaliseColumnLegacy c).enumValues = c.enumValues ∧
      (normaliseColumnLegacy c).comment = c.comment) := by
  refine ⟨?_, ?_, ?_, ?_, ?_, ?_⟩
  · intro t f ht hf
    simp [normaliseColumn, normaliseColumnLegacy, ht, hf]
  · intro ht hf
    simp [normaliseColumn, normaliseColumnLegacy, ht, hf]
  · intro t ht hf
    simp [normaliseColumn, normaliseColumnLegacy, ht, hf]
  · intro f ht hf
    simp [normaliseColumn, normaliseColumnLegacy, ht, hf]
  · simp [normaliseColumn, normaliseColumnLegacy]
  · simp [normaliseColumn, normaliseColumnLegacy]

/-- Witness for `normaliseColumn_type_format_policy` at a concrete input. -/
theorem normaliseColumn_type_format_policy_witness :
    let c : ColumnInput :=
      { title := "age", type := some "number", format := some "int4",
        fk := some "users.id", comment := some "years" }
    (normaliseColumn c).type = "int4" ∧ (normaliseColumn c).format = "number" ∧
      (normaliseColumnLegacy c).type = "number" ∧
      (normaliseColumnLegacy c).format = "int4" := by
  intro c
  have h := (normaliseColumn_type_format_policy c).1 "number" "int4" rfl rfl
  exact ⟨h.1, h.2.1, h.2.2.1, h.2.2.2⟩

theorem parsedTable_eq_stripPos (k : String) (t : Table) (h : wfTable k t) :
    parsedTable k t.columns = stripPos t := by
  obtain ⟨hk, hview, htitle, hschema, hcols⟩ := h
  cases t
  simp_all [parsedTable, stripPos]

set_option maxHeartbeats 1000000 in
/-- C7 (corrected). On the spec-modelled `generateSchemaSQL`/`parseSchemaSQL`
pair, generation followed by parsing reproduces the original `TableState`
key-for-key up to each table's `position` — but only on the well-formed
fragment `wfState` (word-like identifiers, `type = format`, no comments, no
explicit defaults, no enum metadata, no required FK columns, no views); the
claim as stated over every mutation-built state is refuted by
`schema_sql_round_trip_counterexample`, since e.g. column comments are never
emitted. -/
theorem schema_sql_round_trip (tables : TableState) (fuel : Nat) (txt : String)
    (hwf : wfState tables) (hgen : generateSchemaSQL fuel tables = some txt) :
    (parseSchemaSQL txt).error = none ∧
    (parseSchemaSQL txt).enumTypes = [] ∧
    ∀ k, jsGet (parseSchemaSQL txt).tables k = (jsGet tables k).map stripPos := by
  obtain ⟨hnd, hall⟩ := hwf
  obtain ⟨order, hord, htxt⟩ := Option.map_eq_some'.mp hgen
  have hperm := orderTables_perm fuel tables order hord
  have hwford : ∀ v ∈ order, ∃ t, jsGet tables v = some t ∧ wfTable v t := by
    intro v hv
    have hk : v ∈ jsKeys tables := hperm.mem_iff.mp hv
    have hs : (jsGet tables v).isSome = true := (jsGet_isSome_iff_mem tables v).mpr hk
    obtain ⟨t, ht⟩ := Option.isSome_iff_exists.mp hs
    exact ⟨t, ht, hall (v, t) (jsGet_mem tables v t ht)⟩
  subst htxt
  have htok : tokenize (emitTables tables order) = streamTokens tables order := by
    rw [emitTables_eq]
    exact tokenize_stream tables order hwford
  have hlen : order.length < (tokenize (emitTables tables order)).length + 1 := by
    rw [htok]
    have := streamTokens_length tables order hwford
    omega
  have hp := parseTablesTok_tokens tables order
    ((tokenize (emitTables tables order)).length + 1) hwford hlen
  have hps : parseSchemaSQL (emitTables tables order) =
      { tables := parsedState tables order, enumTypes := [], error := none } := by
    simp only [parseSchemaSQL]
    rw [htok] at hp
    rw [htok, hp]
  refine ⟨by rw [hps], by rw [hps], ?_⟩
  intro k
  rw [hps]
  dsimp only
  rw [jsGet_parsedState]
  by_cases hmem : k ∈ order
  · rw [if_pos hmem]
    obtain ⟨t, hget, hwt⟩ := hwford k hmem
    rw [hget]
    dsimp only
    rw [parsedTable_eq_stripPos k t hwt]
    rfl
  · rw [if_neg hmem]
    have hk : k ∉ jsKeys tables := fun hh => hmem (hperm.mem_iff.mpr hh)
    have hns : ¬((jsGet tables k).isSome = true) :=
      fun hs => hk ((jsGet_isSome_iff_mem tables k).mp hs)
    have hnone : jsGet tables k = none := by
      cases hjs : jsGet tables k
      · rfl
      · exact absurd (by simp [hjs]) hns
    rw [hnone]
    rfl

set_option maxRecDepth 100000 in
/-- Witness for `schema_sql_round_trip`: the users/posts fixture is
well-formed, generation succeeds, and reparsing reproduces both tables up to
`position`. -/
theorem schema_sql_round_trip_witness :
    wfState [("users", usersTable), ("posts", postsTable)] ∧
    generateSchemaSQL 10 [("users", usersTable), ("posts", postsTable)] =
      some (emitTables [("users", usersTable), ("posts", postsTable)]
        ["users", "posts"]) ∧
    ((parseSchemaSQL (emitTables [("users", usersTable), ("posts", postsTable)]
        ["users", "posts"])).error = none ∧
      (parseSchemaSQL (emitTables [("users", usersTable), ("posts", postsTable)]
        ["users", "posts"])).enumTypes = [] ∧
      ∀ k, jsGet (parseSchemaSQL (emitTables [("users", usersTable),
          ("posts", postsTable)] ["users", "posts"])).tables k =
        (jsGet [("users", usersTable), ("posts", postsTable)] k).map stripPos) :=
  ⟨by decide, by decide,
    schema_sql_round_trip [("users", usersTable), ("posts", postsTable)] 10 _
      (by decide) (by decide)⟩

/-- The agent state after creating a `notes` table with one commented column
through the `createTable` tool. -/
def cexNotesState : AgentState :=
  (execCreateTable
    { tableId := "notes"
      columns := [{ title := "id", type := some "text", comment := some "note" }] }
    (mkState [] false)).2

set_option maxRecDepth 100000 in
/-- C7 counterexample: a state built by one successful `createTable` mutation
whose column carries a comment; the generated SQL never encodes comments, so
the reparsed table differs from the original even after ignoring `position`. -/
theorem schema_sql_round_trip_counterexample :
    (execCreateTable
      { tableId := "notes"
        columns := [{ title := "id", type := some "text", comment := some "note" }] }
      (mkState [] false)).1.isMutationSuccess = true ∧
    ∃ txt, generateSchemaSQL 10 cexNotesState.schemaState = some txt ∧
      (parseSchemaSQL txt).error = none ∧
      jsGet (parseSchemaSQL txt).tables "notes" ≠
        (jsGet cexNotesState.schemaState "notes").map stripPos := by
  refine ⟨by decide,
    emitTables cexNotesState.schemaState ["notes"], by decide, by decide, by decide⟩

end SupabaseSchema
